import Mathlib

/-!
Verification of the rotki Sushiswap sync/reconciliation module and the AdEx
staking event data model.

Shallow embedding of:
  * `rotkehlchen/chain/ethereum/adex/typing.py` (namespace `Adex`):
    the four staking event dataclasses and their `to_db_tuple` serializers.
  * `rotkehlchen/chain/ethereum/modules/sushiswap/sushiswap.py` (namespace `Sushi`):
    the incremental sync engine: query ranges, paginated graph fetches,
    trade building, DB write-back/read-back and profit/loss reconciliation.

Modelling conventions:
  * `FVal` (arbitrary-precision decimals) is modelled as `Rat`.
  * Ethereum addresses, tx hashes, pool ids are opaque `String`s.
  * The database handler is an explicit `DBState` threaded through the
    functions; graph queries are oracle functions passed as parameters and a
    `RemoteError` is the `.error` case of an `Except Unit` result.
  * Source `while True` pagination loops become fuel-indexed recursion:
    `none` means the fuel ran out (the source loop would still be running).
  * External collaborators (graph transport, token resolution, the sqlite
    layer) are modelled per the interfaces the module consumes.
-/

namespace Adex

/-- Models rotki `Balance` (accounting/structures.py): an amount and its USD
value, both arbitrary-precision decimals. -/
structure AdexBalance where
  amount : Rat
  usd_value : Rat
deriving DecidableEq

/-- Models `EventType` of adex/typing.py (lines 37-53). -/
inductive EventType
  | BOND
  | UNBOND
  | UNBOND_REQUEST
  | CHANNEL_WITHDRAW
deriving DecidableEq

/-- Models `EventType.__str__` (adex/typing.py lines 44-53). The `raise`
branch is unreachable: the Lean match is exhaustive over the four values. -/
def EventType.toStr : EventType → String
  | .BOND => "deposit"
  | .UNBOND => "withdraw"
  | .UNBOND_REQUEST => "withdraw request"
  | .CHANNEL_WITHDRAW => "claim"

/-- Models `AdexEventDBTuple` (adex/typing.py lines 18-34): the 13-element
tuple written to the DB, one named field per tuple slot, in source order. -/
structure AdexEventDBTuple where
  tx_hash : String
  address : String
  identity_address : String
  timestamp : Int
  event_type : String
  pool_id : String
  amount : String
  usd_value : String
  bond_id : Option String
  nonce : Option Int
  slashed_at : Option Int
  unlock_at : Option Int
  channel_id : Option String
deriving DecidableEq

/-- Models the `Bond` dataclass (adex/typing.py lines 56-66). -/
structure Bond where
  tx_hash : String
  address : String
  identity_address : String
  timestamp : Nat
  bond_id : String
  pool_id : String
  value : AdexBalance
  nonce : Int
  slashed_at : Nat
deriving DecidableEq

/-- Models `Bond.to_db_tuple` (adex/typing.py lines 80-95). -/
def Bond.to_db_tuple (b : Bond) : AdexEventDBTuple where
  tx_hash := b.tx_hash
  address := b.address
  identity_address := b.identity_address
  timestamp := (b.timestamp : Int)
  event_type := EventType.BOND.toStr
  pool_id := b.pool_id
  amount := toString b.value.amount
  usd_value := toString b.value.usd_value
  bond_id := some b.bond_id
  nonce := some b.nonce
  slashed_at := some (b.slashed_at : Int)
  unlock_at := none
  channel_id := none

/-- Models the `Unbond` dataclass (adex/typing.py lines 98-106). -/
structure Unbond where
  tx_hash : String
  address : String
  identity_address : String
  timestamp : Nat
  bond_id : String
  value : AdexBalance
  pool_id : String
deriving DecidableEq

/-- Models `Unbond.to_db_tuple` (adex/typing.py lines 120-135). -/
def Unbond.to_db_tuple (u : Unbond) : AdexEventDBTuple where
  tx_hash := u.tx_hash
  address := u.address
  identity_address := u.identity_address
  timestamp := (u.timestamp : Int)
  event_type := EventType.UNBOND.toStr
  pool_id := u.pool_id
  amount := toString u.value.amount
  usd_value := toString u.value.usd_value
  bond_id := some u.bond_id
  nonce := none
  slashed_at := none
  unlock_at := none
  channel_id := none

/-- Models the `UnbondRequest` dataclass (adex/typing.py lines 138-147). -/
structure UnbondRequest where
  tx_hash : String
  address : String
  identity_address : String
  timestamp : Nat
  bond_id : String
  unlock_at : Nat
  value : AdexBalance
  pool_id : String
deriving DecidableEq

/-- Models `UnbondRequest.to_db_tuple` (adex/typing.py lines 161-176). -/
def UnbondRequest.to_db_tuple (r : UnbondRequest) : AdexEventDBTuple where
  tx_hash := r.tx_hash
  address := r.address
  identity_address := r.identity_address
  timestamp := (r.timestamp : Int)
  event_type := EventType.UNBOND_REQUEST.toStr
  pool_id := r.pool_id
  amount := toString r.value.amount
  usd_value := toString r.value.usd_value
  bond_id := some r.bond_id
  nonce := none
  slashed_at := none
  unlock_at := some (r.unlock_at : Int)
  channel_id := none

/-- Models the `ChannelWithdraw` dataclass (adex/typing.py lines 179-187). -/
structure ChannelWithdraw where
  tx_hash : String
  address : String
  identity_address : String
  timestamp : Nat
  value : AdexBalance
  channel_id : String
  pool_id : String
deriving DecidableEq

/-- Models `ChannelWithdraw.to_db_tuple` (adex/typing.py lines 200-215). -/
def ChannelWithdraw.to_db_tuple (c : ChannelWithdraw) : AdexEventDBTuple where
  tx_hash := c.tx_hash
  address := c.address
  identity_address := c.identity_address
  timestamp := (c.timestamp : Int)
  event_type := EventType.CHANNEL_WITHDRAW.toStr
  pool_id := c.pool_id
  amount := toString c.value.amount
  usd_value := toString c.value.usd_value
  bond_id := none
  nonce := none
  slashed_at := none
  unlock_at := none
  channel_id := some c.channel_id

end Adex

namespace Sushi

/-- Models `FVal`: rotki's arbitrary-precision decimal number type. -/
abbrev FVal := Rat

/-- Models the ammswap `EventType` enum (liquidity addition/removal), imported
by sushiswap.py line 19; its definition lives in ammswap/typing.py which is
outside the analysed sources. -/
inductive AMMEventType
  | mint
  | burn
deriving DecidableEq

/-- The list a Python `for event_type in EventType` loop iterates over. -/
def eventTypes : List AMMEventType := [.mint, .burn]

/-- Models a `LiquidityPoolEvent` as produced by `_get_events_graph` and
stored in the sushiswap events table: the fields the sync engine reads
(identity key, owner, timestamp, kind, pool, amounts). -/
structure LPEvent where
  tx_hash : String
  log_index : Nat
  address : String
  timestamp : Nat
  event_type : AMMEventType
  pool_address : String
  lp_amount : FVal
  usd_value : FVal
deriving DecidableEq

/-- Models `AMMSwap` (chain/ethereum/trades.py) as built in
`_get_trades_graph_for_address` (sushiswap.py lines 524-538). The constant
`location=SUSHISWAP` field is omitted. -/
structure AMMSwap where
  tx_hash : String
  log_index : Nat
  address : String
  from_address : String
  to_address : String
  timestamp : Nat
  token0 : String
  token1 : String
  amount0_in : FVal
  amount1_in : FVal
  amount0_out : FVal
  amount1_out : FVal
deriving DecidableEq

/-- Trade direction of an `AMMTrade`. -/
inductive TradeType
  | buy
  | sell
deriving DecidableEq

/-- Models `AMMTrade`: one logical trade derived from a run of swap legs of a
single transaction (direction, base/quote pair, aggregated amounts, and the
underlying swaps, which `_get_trades` walks to collect `all_swaps`). -/
structure AMMTrade where
  trade_type : TradeType
  base_asset : String
  quote_asset : String
  amount_in : FVal
  amount_out : FVal
  swaps : List AMMSwap
deriving DecidableEq

/-- Models a `LiquidityPool` balance snapshot entry as used by the profit/loss
reconciliation (`address_balances` in `_get_events_balances`). -/
structure LiquidityPool where
  pool_address : String
  user_balance : FVal
  usd_value : FVal
deriving DecidableEq

/-- Models `LiquidityPoolEventsBalance`: per-pool profit/loss output of
`_calculate_events_balances`. -/
structure LiquidityPoolEventsBalance where
  address : String
  pool_address : String
  profit_loss_amount : FVal
  profit_loss_usd : FVal
deriving DecidableEq

/-- A record of the `liquidityPositions` query of `_get_balances_graph`: one
position of one user in one pool, already decoded (token resolution and
address deserialization are external collaborators). -/
structure LPPosition where
  user : String
  pool : LiquidityPool
deriving DecidableEq

/-- A record of the `tokenDayDatas` query of `_get_unknown_asset_price_graph`:
a token address with its daily USD price, already decoded. -/
structure TokenDayData where
  token : String
  priceUSD : FVal
deriving DecidableEq

/-! ### Association-list helpers

The Python dicts (`used_query_ranges`, `address_events`, `address_amm_trades`,
`asset_price`) are modelled as insertion-ordered association lists. -/

/-- First value bound to `k`, like Python `d.get(k)`. -/
def lookupAssoc {κ α : Type} [DecidableEq κ] : List (κ × α) → κ → Option α
  | [], _ => none
  | (k', v) :: rest, k => if k = k' then some v else lookupAssoc rest k

/-- Python `d[k] = v`: overwrite the binding of `k` or append a new one. -/
def setAssoc {κ α : Type} [DecidableEq κ] : List (κ × α) → κ → α → List (κ × α)
  | [], k, v => [(k, v)]
  | (k', v') :: rest, k, v =>
      if k = k' then (k', v) :: rest else (k', v') :: setAssoc rest k v

/-- Python `defaultdict(list)` + `d[k].extend(vs)`: append `vs` to the list
bound to `k`, creating the binding if absent. -/
def extendAssoc {κ α : Type} [DecidableEq κ]
    (m : List (κ × List α)) (k : κ) (vs : List α) : List (κ × List α) :=
  match lookupAssoc m k with
  | none => m ++ [(k, vs)]
  | some old => setAssoc m k (old ++ vs)

/-- Python `d.update(d2)`: set every binding of `d2` in `d`. -/
def updateAssoc {κ α : Type} [DecidableEq κ]
    (m : List (κ × α) ) (m2 : List (κ × α)) : List (κ × α) :=
  m2.foldl (fun acc p => setAssoc acc p.1 p.2) m

/-- Keep the first occurrence of each key, dropping later duplicates. Used to
model insertion into a keyed table / a Python `set`. -/
def dedupBy {κ α : Type} [DecidableEq κ] (key : α → κ) : List α → List α
  | [] => []
  | x :: rest =>
      x :: (dedupBy key rest).filter (fun y => ¬ key y = key x)

/-! ### The database handler state

`DBHandler` methods used by sushiswap.py. Only their interface is in the
analysed sources; the semantics below follow spec section 4.4/6 (range store:
get/overwrite; event store: append-only, idempotent by natural key). -/

/-- A used-query-range name. The source builds the string
`f'{PREFIX}_{address}'`; the pair keeps the same information with the
key structure explicit. -/
abbrev RangeName := String × String

/-- Source constant `SUSHISWAP_EVENTS_PREFIX` (sushiswap.py line 53). -/
def SUSHISWAP_EVENTS_TAG : String := "sushiswap_events"

/-- Source constant `SUSHISWAP_TRADES_PREFIX` (sushiswap.py line 54). -/
def SUSHISWAP_TRADES_TAG : String := "sushiswap_trades"

/-- The durable state: used query ranges, the sushiswap events table and the
AMM swaps table. -/
structure DBState where
  used_query_ranges : List (RangeName × (Nat × Nat))
  sushiswap_events : List LPEvent
  amm_swaps : List AMMSwap
deriving DecidableEq

/-- The empty database. -/
def DBState.empty : DBState := ⟨[], [], []⟩

/-- Modelled from the spec: `get_range(key) -> (start,end)?` of the consumed
range store (`DBHandler.get_used_query_range`). -/
def DBState.get_used_query_range (db : DBState) (nm : RangeName) : Option (Nat × Nat) :=
  lookupAssoc db.used_query_ranges nm

/-- Modelled from the spec: `set_range(key, start, end)` overwrites
(`DBHandler.update_used_query_range`). -/
def DBState.update_used_query_range (db : DBState) (nm : RangeName)
    (start_ts end_ts : Nat) : DBState :=
  { db with used_query_ranges := setAssoc db.used_query_ranges nm (start_ts, end_ts) }

/-- Modelled from the spec: the event store `add` is append-only and
idempotent under the natural key `(tx_hash, log_index)`
(`DBHandler.add_sushiswap_events`). -/
def DBState.add_sushiswap_events (db : DBState) (events : List LPEvent) : DBState :=
  { db with sushiswap_events :=
      dedupBy (fun e => (e.tx_hash, e.log_index)) (db.sushiswap_events ++ events) }

/-- Modelled from the spec: swap store `add`, append-only and idempotent under
`(tx_hash, log_index)` (`DBHandler.add_amm_swaps`). -/
def DBState.add_amm_swaps (db : DBState) (swaps : List AMMSwap) : DBState :=
  { db with amm_swaps :=
      dedupBy (fun s => (s.tx_hash, s.log_index)) (db.amm_swaps ++ swaps) }

/-- Modelled from the spec: `get(address, from_ts, to_ts)` of the event store
(`DBHandler.get_sushiswap_events`): the stored events of `address` whose
timestamp lies in the inclusive window. -/
def DBState.get_sushiswap_events (db : DBState) (from_ts to_ts : Nat)
    (address : String) : List LPEvent :=
  db.sushiswap_events.filter
    (fun e => e.address = address ∧ from_ts ≤ e.timestamp ∧ e.timestamp ≤ to_ts)

/-- Modelled from the spec: swap read-back of the event store, per address and
inclusive window (`DBHandler.get_amm_swaps`). -/
def DBState.get_amm_swaps (db : DBState) (from_ts to_ts : Nat)
    (address : String) : List AMMSwap :=
  db.amm_swaps.filter
    (fun s => s.address = address ∧ from_ts ≤ s.timestamp ∧ s.timestamp ≤ to_ts)

/-! ### Sorting

Python `list.sort` is a stable comparison sort; it is modelled by a stable
insertion sort, which is structurally recursive (so concrete runs reduce in
the kernel). -/

/-- Insert `x` before the first element `y` with `le x y`. -/
def insertBy {A : Type} (le : A → A → Bool) (x : A) : List A → List A
  | [] => [x]
  | y :: ys => if le x y then x :: y :: ys else y :: insertBy le x ys

/-- Stable insertion sort by the comparison `le`. -/
def sortBy {A : Type} (le : A → A → Bool) : List A → List A
  | [] => []
  | x :: xs => insertBy le x (sortBy le xs)

/-! ### Trade building -/

/-- Comparison key used by `db_events.sort(key=lambda e: (e.timestamp,
e.log_index))` (sushiswap.py line 321). -/
def leTsLogIndexEvent (e1 e2 : LPEvent) : Bool :=
  decide (e1.timestamp < e2.timestamp ∨
    (e1.timestamp = e2.timestamp ∧ e1.log_index ≤ e2.log_index))

/-- Ascending `(timestamp, log_index)` order on swaps. -/
def leTsLogIndexSwap (s1 s2 : AMMSwap) : Bool :=
  decide (s1.timestamp < s2.timestamp ∨
    (s1.timestamp = s2.timestamp ∧ s1.log_index ≤ s2.log_index))

/-- Ascending log-index (on-chain execution) order on swap legs. -/
def leLogIndex (s1 s2 : AMMSwap) : Bool :=
  decide (s1.log_index ≤ s2.log_index)

/-- Modelled from the spec: per-leg direction classification (spec 4.3 step 2,
documented in the `_get_trades_graph_for_address` docstring, sushiswap.py
lines 437-443): BUY when `amount1In > 0 and amount0Out > 0`, SELL when
`amount0In > 0 and amount1Out > 0` (BUY pattern checked first), any other leg
is invalid and dropped. The classifying code itself
(`AMMSwapPlatform._tx_swaps_to_trades`, ammswap/ammswap.py) is outside the
analysed sources. -/
def classify_leg (s : AMMSwap) : Option TradeType :=
  if 0 < s.amount1_in ∧ 0 < s.amount0_out then some .buy
  else if 0 < s.amount0_in ∧ 0 < s.amount1_out then some .sell
  else none

/-- Two legs belong to the same pool when they share the token pair. -/
def samePool (s1 s2 : AMMSwap) : Bool :=
  decide (s1.token0 = s2.token0 ∧ s1.token1 = s2.token1)

/-- Chunk a classified leg list into maximal runs of consecutive legs with the
same direction and pool (spec 4.3 step 3). Each run is kept as
`(direction, first leg, later legs)`. -/
def chunkRuns : List (TradeType × AMMSwap) → List (TradeType × AMMSwap × List AMMSwap)
  | [] => []
  | (d, s) :: rest =>
      match chunkRuns rest with
      | [] => [(d, s, [])]
      | (d2, s2, run) :: more =>
          if d = d2 ∧ samePool s s2 then (d, s, s2 :: run) :: more
          else (d, s, []) :: (d2, s2, run) :: more

/-- Build one `AMMTrade` from a run of same-direction legs by summing the
in/out amounts (spec 4.3 steps 3-4: `token0` is the base asset, `token1` the
quote asset; a BUY takes the quote in and the base out). -/
def mkTrade : TradeType × AMMSwap × List AMMSwap → AMMTrade
  | (d, s, run) =>
      let legs := s :: run
      { trade_type := d
        base_asset := s.token0
        quote_asset := s.token1
        amount_in :=
          match d with
          | .buy => (legs.map (fun l => l.amount1_in)).sum
          | .sell => (legs.map (fun l => l.amount0_in)).sum
        amount_out :=
          match d with
          | .buy => (legs.map (fun l => l.amount0_out)).sum
          | .sell => (legs.map (fun l => l.amount1_out)).sum
        swaps := legs }

/-- Modelled from the spec: `AMMSwapPlatform._tx_swaps_to_trades`
(ammswap/ammswap.py, outside the analysed sources; spec 4.3): order a
transaction's legs by log index, classify each, drop unclassifiable legs, and
merge consecutive same-pool same-direction runs into one trade each. -/
def tx_swaps_to_trades (swaps : List AMMSwap) : List AMMTrade :=
  let ordered := sortBy leLogIndex swaps
  let classified := ordered.filterMap (fun s => (classify_leg s).map (fun d => (d, s)))
  (chunkRuns classified).map mkTrade

/-! ### Paginated graph fetches -/

/-- Modelled from the spec: `GRAPH_QUERY_LIMIT`, the fixed page size constant
shared by all paginated queries (chain/ethereum/graph.py, outside the
analysed sources; rotki uses 1000). -/
def GRAPH_QUERY_LIMIT : Nat := 1000

/-- Processing of one `liquidityPositions` record of `_get_balances_graph`
(sushiswap.py line 189): append the pool to the user's balance list. -/
def addPosition (m : List (String × List LiquidityPool)) (p : LPPosition) :
    List (String × List LiquidityPool) :=
  extendAssoc m p.user [p.pool]

/-- Models the `while True` pagination loop of `Sushiswap._get_balances_graph`
(sushiswap.py lines 111-199). `query` is the graph transport keyed by the
`offset` parameter; a `RemoteError` is re-raised (`.error`), discarding the
accumulator. Besides `address_balances` the result carries two observations of
the loop that the source does not return: the concatenation of all fetched
pages and the number of `query` calls made. `none` means the fuel ran out. -/
def get_balances_graph_loop (query : Nat → Except Unit (List LPPosition)) :
    Nat → Nat → List (String × List LiquidityPool) → List LPPosition → Nat →
    Option (Except Unit (List (String × List LiquidityPool) × List LPPosition × Nat))
  | 0, _, _, _, _ => none
  | fuel + 1, offset, address_balances, raw, nreq =>
      match query offset with
      | .error u => some (.error u)
      | .ok result_data =>
          let address_balances2 := result_data.foldl addPosition address_balances
          if result_data.length < GRAPH_QUERY_LIMIT then
            some (.ok (address_balances2, raw ++ result_data, nreq + 1))
          else
            get_balances_graph_loop query fuel (offset + GRAPH_QUERY_LIMIT)
              address_balances2 (raw ++ result_data) (nreq + 1)

/-- `Sushiswap._get_balances_graph`: run the pagination loop from offset 0
with empty accumulators. Token known/unknown classification and the
`ProtocolBalance` wrapper are external token-resolution concerns. -/
def get_balances_graph (query : Nat → Except Unit (List LPPosition)) (fuel : Nat) :
    Option (Except Unit (List (String × List LiquidityPool) × List LPPosition × Nat)) :=
  get_balances_graph_loop query fuel 0 [] [] 0

/-- Models the `while True` pagination loop of
`Sushiswap._get_unknown_asset_price_graph` (sushiswap.py lines 589-622); each
record overwrites `asset_price[token_address]`, a `RemoteError` is re-raised.
Same instrumentation as `get_balances_graph_loop`. -/
def get_unknown_asset_price_graph_loop (query : Nat → Except Unit (List TokenDayData)) :
    Nat → Nat → List (String × FVal) → List TokenDayData → Nat →
    Option (Except Unit (List (String × FVal) × List TokenDayData × Nat))
  | 0, _, _, _, _ => none
  | fuel + 1, offset, asset_price, raw, nreq =>
      match query offset with
      | .error u => some (.error u)
      | .ok result_data =>
          let asset_price2 :=
            result_data.foldl (fun m tdd => setAssoc m tdd.token tdd.priceUSD) asset_price
          if result_data.length < GRAPH_QUERY_LIMIT then
            some (.ok (asset_price2, raw ++ result_data, nreq + 1))
          else
            get_unknown_asset_price_graph_loop query fuel (offset + GRAPH_QUERY_LIMIT)
              asset_price2 (raw ++ result_data) (nreq + 1)

/-- `Sushiswap._get_unknown_asset_price_graph`: run the loop from offset 0. -/
def get_unknown_asset_price_graph (query : Nat → Except Unit (List TokenDayData)) (fuel : Nat) :
    Option (Except Unit (List (String × FVal) × List TokenDayData × Nat)) :=
  get_unknown_asset_price_graph_loop query fuel 0 [] [] 0

/-- Models the `while True` pagination loop of
`Sushiswap._get_trades_graph_for_address` (sushiswap.py lines 465-557).
`query` takes the address filter, the window and the offset, and returns one
page: the `transaction.swaps` leg list of each returned swap entry, already
decoded (token resolution / address deserialization are external). On a
`RemoteError` the source breaks out of the loop (line 474) and the trades
accumulated so far are returned. Entries whose leg list is empty are skipped
(line 542-543). -/
def get_trades_graph_for_address_loop
    (query : String → Nat → Nat → Nat → Except Unit (List (List AMMSwap)))
    (address : String) (start_ts end_ts : Nat) :
    Nat → Nat → List AMMTrade → Option (List AMMTrade)
  | 0, _, _ => none
  | fuel + 1, offset, trades =>
      match query address start_ts end_ts offset with
      | .error _ => some trades
      | .ok result_swaps =>
          let trades2 := result_swaps.foldl
            (fun ts entry => if entry.length = 0 then ts else ts ++ tx_swaps_to_trades entry)
            trades
          if result_swaps.length < GRAPH_QUERY_LIMIT then some trades2
          else
            get_trades_graph_for_address_loop query address start_ts end_ts fuel
              (offset + GRAPH_QUERY_LIMIT) trades2

/-- `Sushiswap._get_trades_graph_for_address`: run the loop from offset 0. -/
def get_trades_graph_for_address
    (query : String → Nat → Nat → Nat → Except Unit (List (List AMMSwap)))
    (address : String) (start_ts end_ts : Nat) (fuel : Nat) : Option (List AMMTrade) :=
  get_trades_graph_for_address_loop query address start_ts end_ts fuel 0 []

/-- Modelled from the spec: `AMMSwapPlatform._get_trades_graph`
(ammswap/ammswap.py, outside the analysed sources): call the per-address page
loop for each address over the same window and map each address with a
non-empty result to its trades. The second component records, per address, the
window the fetch was issued for. -/
def get_trades_graph_step
    (query : String → Nat → Nat → Nat → Except Unit (List (List AMMSwap)))
    (fuel : Nat) (start_ts end_ts : Nat)
    (acc : Option (List (String × List AMMTrade) × List (String × Nat × Nat)))
    (address : String) :
    Option (List (String × List AMMTrade) × List (String × Nat × Nat)) :=
  match acc with
  | none => none
  | some (m, flog) =>
      match get_trades_graph_for_address query address start_ts end_ts fuel with
      | none => none
      | some trades =>
          some ((if trades = [] then m else m ++ [(address, trades)]),
            flog ++ [(address, start_ts, end_ts)])

def get_trades_graph
    (query : String → Nat → Nat → Nat → Except Unit (List (List AMMSwap)))
    (fuel : Nat) (addresses : List String) (start_ts end_ts : Nat) :
    Option (List (String × List AMMTrade) × List (String × Nat × Nat)) :=
  addresses.foldl (get_trades_graph_step query fuel start_ts end_ts) (some ([], []))

/-! ### The sync drivers -/

/-- The classification loop shared by `_get_events_balances` (sushiswap.py
lines 254-262) and `_get_trades` (lines 367-375): partition the requested
addresses into new/existing by their stored used-query-range and fold the
minimum stored end, starting from `to_timestamp`. -/
def classifyAddresses (db : DBState) (tag : String) (addresses : List String)
    (to_timestamp : Nat) : List String × List String × Nat :=
  addresses.foldl
    (fun acc address =>
      match db.get_used_query_range (tag, address) with
      | none => (acc.1 ++ [address], acc.2.1, acc.2.2)
      | some r => (acc.1, acc.2.1 ++ [address], min acc.2.2 r.2))
    ([], [], to_timestamp)

/-- The unique tx hashes of a swap list, in first-occurrence order. -/
def txHashes (swaps : List AMMSwap) : List String :=
  dedupBy id (swaps.map (fun s => s.tx_hash))

/-- Modelled from the spec: `AMMSwapPlatform._fetch_trades_from_db`
(ammswap/ammswap.py, outside the analysed sources): per address, read the
stored swaps inside the window, order them, group them by transaction and
rebuild the trades; addresses without trades are absent from the mapping. -/
def fetch_trades_from_db (db : DBState) (addresses : List String)
    (from_ts to_ts : Nat) : List (String × List AMMTrade) :=
  addresses.foldl
    (fun acc address =>
      let swaps := sortBy leTsLogIndexSwap (db.get_amm_swaps from_ts to_ts address)
      let trades := (txHashes swaps).foldl
        (fun l h => l ++ tx_swaps_to_trades (swaps.filter (fun s => s.tx_hash = h))) []
      if trades = [] then acc else acc ++ [(address, trades)])
    []

/-- Models `Sushiswap._get_trades` (sushiswap.py lines 347-422). The third
result component is the fetch log of `get_trades_graph` invocations. The
source guards the range-insertion loop for new addresses with
`if new_addresses:`; folding over the empty list is the identity, so the
guard is dropped here. `none` means some page loop ran out of fuel. -/
def get_trades
    (query : String → Nat → Nat → Nat → Except Unit (List (List AMMSwap)))
    (fuel : Nat) (addresses : List String) (from_timestamp to_timestamp : Nat)
    (only_cache : Bool) (db : DBState) :
    Option (List (String × List AMMTrade) × DBState × List (String × Nat × Nat)) :=
  if only_cache then
    some (fetch_trades_from_db db addresses from_timestamp to_timestamp, db, [])
  else
    let c := classifyAddresses db SUSHISWAP_TRADES_TAG addresses to_timestamp
    let new_addresses := c.1
    let existing_addresses := c.2.1
    let min_end_ts := c.2.2
    match get_trades_graph query fuel new_addresses 0 to_timestamp with
    | none => none
    | some (new_address_trades, log1) =>
        let m1 := updateAssoc [] new_address_trades
        let db1 := new_addresses.foldl
          (fun d a => d.update_used_query_range (SUSHISWAP_TRADES_TAG, a) 0 to_timestamp) db
        match (if ¬ existing_addresses = [] ∧ min_end_ts < to_timestamp then
            get_trades_graph query fuel existing_addresses min_end_ts to_timestamp
          else some ([], [])) with
        | none => none
        | some (address_new_trades, log2) =>
            let m2 := updateAssoc m1 address_new_trades
            let db2 := if ¬ existing_addresses = [] ∧ min_end_ts < to_timestamp then
                existing_addresses.foldl
                  (fun d a =>
                    d.update_used_query_range (SUSHISWAP_TRADES_TAG, a) min_end_ts to_timestamp)
                  db1
              else db1
            let all_swaps := dedupBy id
              ((addresses.filter (fun a => (lookupAssoc m2 a).isSome)).foldl
                (fun l a => ((lookupAssoc m2 a).getD []).foldl (fun l2 t => l2 ++ t.swaps) l) [])
            let db3 := db2.add_amm_swaps all_swaps
            some (fetch_trades_from_db db3 addresses from_timestamp to_timestamp, db3,
              log1 ++ log2)

/-- Instance search does not find this product instance on its own. -/
instance :
    DecidableEq (List (String × List AMMTrade) × DBState × List (String × Nat × Nat)) :=
  @instDecidableEqProd _ _ inferInstance inferInstance

/-- Accumulator threaded through the two fetch phases of
`_get_events_balances`: the `address_events` defaultdict, the mutated
database, and a log of the `_get_events_graph` calls issued
(address, event type, start, end). -/
structure SyncAcc where
  address_events : List (String × List LPEvent)
  db : DBState
  fetch_log : List (String × AMMEventType × Nat × Nat)

/-- One iteration of the per-address fetch loops of `_get_events_balances`
(new addresses: sushiswap.py lines 267-283 with `start_ts = 0`; existing
addresses: lines 287-303 with `start_ts = min_end_ts`): query every event
type over `[start_ts, to_timestamp]`, extend `address_events` with non-empty
results, then overwrite the address's used-query-range with
`(start_ts, to_timestamp)`. -/
def processAddressEvents (f : String → AMMEventType → Nat → Nat → List LPEvent)
    (start_ts to_timestamp : Nat) (acc : SyncAcc) (address : String) : SyncAcc :=
  let acc1 := eventTypes.foldl
    (fun a et =>
      let new_events := f address et start_ts to_timestamp
      { a with
        address_events :=
          if new_events = [] then a.address_events
          else extendAssoc a.address_events address new_events
        fetch_log := a.fetch_log ++ [(address, et, start_ts, to_timestamp)] })
    acc
  { acc1 with
    db := acc1.db.update_used_query_range (SUSHISWAP_EVENTS_TAG, address) start_ts to_timestamp }

/-- The read-back phase of `_get_events_balances` (sushiswap.py lines
313-322): per requested address, load the stored events inside the requested
window; when non-empty, sort ascending by `(timestamp, log_index)` and record
them. -/
def readback_events (db : DBState) (addresses : List String) (from_ts to_ts : Nat) :
    List (String × List LPEvent) :=
  addresses.foldl
    (fun acc address =>
      let db_events := db.get_sushiswap_events from_ts to_ts address
      if db_events = [] then acc
      else acc ++ [(address, sortBy leTsLogIndexEvent db_events)])
    []

/-- The pool addresses appearing in an event list, first occurrence first. -/
def poolsOf (events : List LPEvent) : List String :=
  dedupBy id (events.map (fun e => e.pool_address))

/-- Modelled from the spec: `AMMSwapPlatform._calculate_events_balances`
(ammswap/ammswap.py, outside the analysed sources; spec 4.5): per pool of the
event history, profit/loss = live snapshot balance + removed liquidity −
added liquidity, in token units and in USD value at event time. -/
def calculate_events_balances (address : String) (events : List LPEvent)
    (balances : List LiquidityPool) : List LiquidityPoolEventsBalance :=
  (poolsOf events).map
    (fun pool =>
      let pool_events := events.filter (fun e => e.pool_address = pool)
      let pool_balances := balances.filter (fun b => b.pool_address = pool)
      let burns := pool_events.filter (fun e => e.event_type = .burn)
      let mints := pool_events.filter (fun e => e.event_type = .mint)
      { address := address
        pool_address := pool
        profit_loss_amount :=
          (pool_balances.map (fun b => b.user_balance)).sum
            + (burns.map (fun e => e.lp_amount)).sum
            - (mints.map (fun e => e.lp_amount)).sum
        profit_loss_usd :=
          (pool_balances.map (fun b => b.usd_value)).sum
            + (burns.map (fun e => e.usd_value)).sum
            - (mints.map (fun e => e.usd_value)).sum })

/-- Models `Sushiswap._get_events_balances` (sushiswap.py lines 235-345).
`f` is `_get_events_graph` (per spec the history fetch returns the successful
prefix and never raises); `getBalances` is `Sushiswap.get_balances`, the live
balances snapshot. Returns the per-address profit/loss mapping, the final
database, and the log of `_get_events_graph` calls issued. The source guards
the new-address loop with `if new_addresses:`; folding over the empty list is
the identity, so the guard is dropped here. -/
def get_events_balances (f : String → AMMEventType → Nat → Nat → List LPEvent)
    (getBalances : List String → List (String × List LiquidityPool))
    (addresses : List String) (from_timestamp to_timestamp : Nat) (db : DBState) :
    List (String × List LiquidityPoolEventsBalance) × DBState
      × List (String × AMMEventType × Nat × Nat) :=
  let c := classifyAddresses db SUSHISWAP_EVENTS_TAG addresses to_timestamp
  let new_addresses := c.1
  let existing_addresses := c.2.1
  let min_end_ts := c.2.2
  let acc0 : SyncAcc := ⟨[], db, []⟩
  let acc1 := new_addresses.foldl (processAddressEvents f 0 to_timestamp) acc0
  let acc2 := if ¬ existing_addresses = [] ∧ min_end_ts < to_timestamp then
      existing_addresses.foldl (processAddressEvents f min_end_ts to_timestamp) acc1
    else acc1
  let all_events := (addresses.filter (fun a => (lookupAssoc acc2.address_events a).isSome)).foldl
    (fun l a => l ++ ((lookupAssoc acc2.address_events a).getD [])) []
  let db2 := acc2.db.add_sushiswap_events all_events
  let db_address_events := readback_events db2 addresses from_timestamp to_timestamp
  let address_balances := if from_timestamp = 0 then getBalances addresses else []
  let result := db_address_events.map
    (fun p => (p.1, calculate_events_balances p.1 p.2 ((lookupAssoc address_balances p.1).getD [])))
  (result, db2, acc2.fetch_log)

/-! ### Helper lemmas: association lists, range updates, classification -/

theorem lookup_setAssoc {κ α : Type} [DecidableEq κ] (m : List (κ × α)) (k k' : κ) (v : α) :
    lookupAssoc (setAssoc m k v) k' = if k' = k then some v else lookupAssoc m k' := by
  induction m with
  | nil =>
      by_cases h : k' = k <;> simp [setAssoc, lookupAssoc, h]
  | cons p rest ih =>
      obtain ⟨pk, pv⟩ := p
      by_cases h1 : k = pk
      · subst h1
        by_cases h2 : k' = k <;> simp [setAssoc, lookupAssoc, h2]
      · by_cases h2 : k' = pk
        · subst h2
          simp [setAssoc, lookupAssoc, h1, Ne.symm h1]
        · simp [setAssoc, lookupAssoc, h1, h2, ih]

theorem get_update_used_query_range (db : DBState) (nm nm' : RangeName) (s e : Nat) :
    (db.update_used_query_range nm s e).get_used_query_range nm' =
      if nm' = nm then some (s, e) else db.get_used_query_range nm' := by
  simp [DBState.update_used_query_range, DBState.get_used_query_range, lookup_setAssoc]

/-- Effect on the range store of the per-address range-update loops: every
address in `as` gets the range `(s, e)` under `tag`, everything else is
unchanged. -/
theorem get_range_after_updates (as : List String) (tag : String) (s e : Nat)
    (db : DBState) (nm : RangeName) :
    ((as.foldl (fun d a => d.update_used_query_range (tag, a) s e) db).get_used_query_range nm)
      = if nm.1 = tag ∧ nm.2 ∈ as then some (s, e) else db.get_used_query_range nm := by
  induction as generalizing db with
  | nil => simp
  | cons a rest ih =>
      obtain ⟨t, x⟩ := nm
      simp only [List.foldl_cons]
      rw [ih, get_update_used_query_range]
      by_cases h1 : t = tag <;> by_cases h2 : x ∈ rest <;> by_cases h3 : x = a <;>
        simp_all [Prod.ext_iff]

/-- The stored range ends of the already-tracked addresses of a batch, in
batch order. -/
def storedEnds (db : DBState) (tag : String) (addresses : List String) : List Nat :=
  addresses.filterMap (fun a => (db.get_used_query_range (tag, a)).map Prod.snd)

/-- Closed form of the classification fold, for an arbitrary starting
accumulator. -/
theorem classify_fold_spec (db : DBState) (tag : String) (addresses : List String)
    (n0 e0 : List String) (m0 : Nat) :
    addresses.foldl
      (fun acc address =>
        match db.get_used_query_range (tag, address) with
        | none => (acc.1 ++ [address], acc.2.1, acc.2.2)
        | some r => (acc.1, acc.2.1 ++ [address], min acc.2.2 r.2))
      (n0, e0, m0)
    = (n0 ++ addresses.filter (fun a => (db.get_used_query_range (tag, a)).isNone),
       e0 ++ addresses.filter (fun a => (db.get_used_query_range (tag, a)).isSome),
       (storedEnds db tag addresses).foldl min m0) := by
  induction addresses generalizing n0 e0 m0 with
  | nil => simp [storedEnds]
  | cons a rest ih =>
      cases h : db.get_used_query_range (tag, a) <;>
        simp [h, ih, storedEnds, List.filter_cons, List.filterMap_cons]

/-- `classifyAddresses` partitions the batch by presence of a stored range and
folds `min` over the stored ends starting at `to_timestamp`. -/
theorem classifyAddresses_eq (db : DBState) (tag : String) (addresses : List String)
    (to_timestamp : Nat) :
    classifyAddresses db tag addresses to_timestamp
      = (addresses.filter (fun a => (db.get_used_query_range (tag, a)).isNone),
         addresses.filter (fun a => (db.get_used_query_range (tag, a)).isSome),
         (storedEnds db tag addresses).foldl min to_timestamp) := by
  simpa [classifyAddresses] using
    classify_fold_spec db tag addresses [] [] to_timestamp

/-- A fold of `min` is a lower bound of its start and of every element, and is
attained at the start or at an element. -/
theorem foldl_min_spec (l : List Nat) (m0 : Nat) :
    (l.foldl min m0 ≤ m0 ∧ ∀ x ∈ l, l.foldl min m0 ≤ x)
      ∧ (l.foldl min m0 = m0 ∨ l.foldl min m0 ∈ l) := by
  induction l generalizing m0 with
  | nil => simp
  | cons y rest ih =>
      obtain ⟨⟨hb, hall⟩, hatt⟩ := ih (min m0 y)
      simp only [List.foldl_cons]
      constructor
      · constructor
        · exact hb.trans (min_le_left m0 y)
        · intro x hx
          rcases List.mem_cons.mp hx with h | h
          · exact h ▸ hb.trans (min_le_right m0 y)
          · exact hall x h
      · rcases hatt with h | h
        · rcases le_total m0 y with hle | hle
          · left
            rw [h, min_eq_left hle]
          · right
            rw [h, min_eq_right hle]
            exact List.mem_cons_self _ _
        · right
          exact List.mem_cons_of_mem _ h

@[simp] theorem get_range_add_sushiswap_events (db : DBState) (evs : List LPEvent)
    (nm : RangeName) :
    (db.add_sushiswap_events evs).get_used_query_range nm = db.get_used_query_range nm := rfl

@[simp] theorem get_range_add_amm_swaps (db : DBState) (swaps : List AMMSwap)
    (nm : RangeName) :
    (db.add_amm_swaps swaps).get_used_query_range nm = db.get_used_query_range nm := rfl

@[simp] theorem processAddressEvents_db (f : String → AMMEventType → Nat → Nat → List LPEvent)
    (s to_ts : Nat) (acc : SyncAcc) (a : String) :
    (processAddressEvents f s to_ts acc a).db
      = acc.db.update_used_query_range (SUSHISWAP_EVENTS_TAG, a) s to_ts := rfl

@[simp] theorem processAddressEvents_log (f : String → AMMEventType → Nat → Nat → List LPEvent)
    (s to_ts : Nat) (acc : SyncAcc) (a : String) :
    (processAddressEvents f s to_ts acc a).fetch_log
      = acc.fetch_log ++ [(a, .mint, s, to_ts), (a, .burn, s, to_ts)] := by
  simp [processAddressEvents, eventTypes]

theorem fold_processAddressEvents_db (f : String → AMMEventType → Nat → Nat → List LPEvent)
    (s to_ts : Nat) (as : List String) (acc : SyncAcc) :
    (as.foldl (processAddressEvents f s to_ts) acc).db
      = as.foldl (fun d a => d.update_used_query_range (SUSHISWAP_EVENTS_TAG, a) s to_ts) acc.db := by
  induction as generalizing acc with
  | nil => rfl
  | cons a rest ih => simp [ih]

theorem fold_processAddressEvents_log (f : String → AMMEventType → Nat → Nat → List LPEvent)
    (s to_ts : Nat) (as : List String) (acc : SyncAcc) :
    (as.foldl (processAddressEvents f s to_ts) acc).fetch_log
      = acc.fetch_log ++ as.flatMap (fun a => [(a, .mint, s, to_ts), (a, .burn, s, to_ts)]) := by
  induction as generalizing acc with
  | nil => simp
  | cons a rest ih => simp [ih]

/-- Range-store content after a `get_events_balances` sync: existing
addresses are overwritten with `(min_end_ts, to_timestamp)` when the delta
fetch ran, new addresses with `(0, to_timestamp)`, everything else is
untouched. -/
theorem get_events_balances_ranges (f : String → AMMEventType → Nat → Nat → List LPEvent)
    (G : List String → List (String × List LiquidityPool))
    (addresses : List String) (from_ts to_ts : Nat) (db : DBState) (nm : RangeName) :
    ((get_events_balances f G addresses from_ts to_ts db).2.1).get_used_query_range nm
      = (let c := classifyAddresses db SUSHISWAP_EVENTS_TAG addresses to_ts
         if nm.1 = SUSHISWAP_EVENTS_TAG ∧ nm.2 ∈ c.2.1 ∧ (¬ c.2.1 = [] ∧ c.2.2 < to_ts) then
           some (c.2.2, to_ts)
         else if nm.1 = SUSHISWAP_EVENTS_TAG ∧ nm.2 ∈ c.1 then some (0, to_ts)
         else db.get_used_query_range nm) := by
  simp only [get_events_balances, get_range_add_sushiswap_events]
  by_cases hc : ¬ (classifyAddresses db SUSHISWAP_EVENTS_TAG addresses to_ts).2.1 = []
      ∧ (classifyAddresses db SUSHISWAP_EVENTS_TAG addresses to_ts).2.2 < to_ts
  · simp only [hc, not_false_eq_true, and_self, and_true, if_true,
      fold_processAddressEvents_db, get_range_after_updates]
  · rw [if_neg hc]
    simp only [hc, and_false, if_false, fold_processAddressEvents_db,
      get_range_after_updates]

/-! ### Sorting lemmas -/

theorem mem_insertBy {A : Type} (le : A → A → Bool) (x a : A) (l : List A) :
    a ∈ insertBy le x l ↔ a = x ∨ a ∈ l := by
  induction l with
  | nil => simp [insertBy]
  | cons y ys ih =>
      by_cases h : le x y = true
      · simp only [insertBy]
        rw [if_pos h]
        simp [List.mem_cons]
      · simp only [insertBy]
        rw [if_neg h]
        simp only [List.mem_cons, ih]
        tauto

theorem mem_sortBy {A : Type} (le : A → A → Bool) (a : A) (l : List A) :
    a ∈ sortBy le l ↔ a ∈ l := by
  induction l with
  | nil => simp [sortBy]
  | cons x xs ih => simp [sortBy, mem_insertBy, ih]

theorem pairwise_insertBy {A : Type} (le : A → A → Bool)
    (htot : ∀ a b, le a b = true ∨ le b a = true)
    (htrans : ∀ a b c, le a b = true → le b c = true → le a c = true)
    (x : A) (l : List A) (h : l.Pairwise (fun a b => le a b = true)) :
    (insertBy le x l).Pairwise (fun a b => le a b = true) := by
  induction l with
  | nil => simp [insertBy]
  | cons y ys ih =>
      rcases List.pairwise_cons.mp h with ⟨hy, hys⟩
      by_cases hxy : le x y = true
      · simp only [insertBy]
        rw [if_pos hxy]
        refine List.Pairwise.cons ?_ (List.Pairwise.cons hy hys)
        intro z hz
        rcases List.mem_cons.mp hz with hzy | hz'
        · rw [hzy]
          exact hxy
        · exact htrans x y z hxy (hy z hz')
      · simp only [insertBy]
        rw [if_neg hxy]
        refine List.Pairwise.cons ?_ (ih hys)
        intro z hz
        rcases (mem_insertBy le x z ys).mp hz with hzx | hz'
        · rw [hzx]
          rcases htot x y with h' | h'
          · exact absurd h' hxy
          · exact h'
        · exact hy z hz'

theorem sortBy_pairwise {A : Type} (le : A → A → Bool)
    (htot : ∀ a b, le a b = true ∨ le b a = true)
    (htrans : ∀ a b c, le a b = true → le b c = true → le a c = true)
    (l : List A) : (sortBy le l).Pairwise (fun a b => le a b = true) := by
  induction l with
  | nil => simp [sortBy]
  | cons x xs ih => exact pairwise_insertBy le htot htrans x _ ih

theorem leTsLogIndexEvent_total (e1 e2 : LPEvent) :
    leTsLogIndexEvent e1 e2 = true ∨ leTsLogIndexEvent e2 e1 = true := by
  simp only [leTsLogIndexEvent, decide_eq_true_eq]
  omega

theorem leTsLogIndexEvent_trans (e1 e2 e3 : LPEvent)
    (h1 : leTsLogIndexEvent e1 e2 = true) (h2 : leTsLogIndexEvent e2 e3 = true) :
    leTsLogIndexEvent e1 e3 = true := by
  simp only [leTsLogIndexEvent, decide_eq_true_eq] at h1 h2 ⊢
  omega

/-! ### C2: query-range evolution across syncs -/

/-- C2 counterexample: the query-range start is NOT fixed at its first-sync
value and the stored end is NOT monotone. Concretely: sync address "a" to
5000 (stored range becomes `(0, 5000)`), sync address "b" to 1000, then sync
the batch `["a", "b"]` to 2000. The batch's minimum stored end is 1000 < 2000,
so the delta fetch runs and `_get_events_balances` overwrites BOTH ranges with
`(min_end_ts, to_timestamp) = (1000, 2000)` (sushiswap.py lines 298-303):
address "a"'s start moved from 0 to 1000 and its end decreased from 5000 to
2000. -/
theorem events_range_overwrite_counterexample :
    (((get_events_balances (fun _ _ _ _ => []) (fun _ => []) ["a"] 0 5000
        DBState.empty).2.1).get_used_query_range (SUSHISWAP_EVENTS_TAG, "a")
      = some (0, 5000))
    ∧ (((get_events_balances (fun _ _ _ _ => []) (fun _ => []) ["a", "b"] 0 2000
          ((get_events_balances (fun _ _ _ _ => []) (fun _ => []) ["b"] 0 1000
            ((get_events_balances (fun _ _ _ _ => []) (fun _ => []) ["a"] 0 5000
              DBState.empty).2.1)).2.1)).2.1).get_used_query_range
        (SUSHISWAP_EVENTS_TAG, "a")
      = some (1000, 2000)) := by
  constructor
  · decide
  · decide

/-- C2 amended: once a query range has been stored, later syncs overwrite it
rather than keeping the start fixed: whenever `to_timestamp` exceeds the
batch's minimum stored end, every existing address's range becomes
`(min_end_ts, to_timestamp)`. What does hold is: (i) the invariant
`start ≤ end` of every stored range is preserved by a sync, and (ii) for a
single-address sync the stored end never decreases (the batched case can
decrease it, see the counterexample). -/
theorem events_range_invariant_amended
    (f : String → AMMEventType → Nat → Nat → List LPEvent)
    (G : List String → List (String × List LiquidityPool))
    (addresses : List String) (from_ts to_ts : Nat) (db : DBState)
    (hinv : ∀ nm s e, db.get_used_query_range nm = some (s, e) → s ≤ e) :
    (∀ nm s e,
        ((get_events_balances f G addresses from_ts to_ts db).2.1).get_used_query_range nm
          = some (s, e) → s ≤ e)
    ∧ (∀ a s0 e0, db.get_used_query_range (SUSHISWAP_EVENTS_TAG, a) = some (s0, e0) →
        ∃ s1 e1,
          ((get_events_balances f G [a] from_ts to_ts db).2.1).get_used_query_range
              (SUSHISWAP_EVENTS_TAG, a) = some (s1, e1) ∧ e0 ≤ e1) := by
  constructor
  · intro nm s e hrange
    simp only [get_events_balances_ranges] at hrange
    by_cases h1 : nm.1 = SUSHISWAP_EVENTS_TAG
        ∧ nm.2 ∈ (classifyAddresses db SUSHISWAP_EVENTS_TAG addresses to_ts).2.1
        ∧ (¬ (classifyAddresses db SUSHISWAP_EVENTS_TAG addresses to_ts).2.1 = []
          ∧ (classifyAddresses db SUSHISWAP_EVENTS_TAG addresses to_ts).2.2 < to_ts)
    · rw [if_pos h1] at hrange
      obtain ⟨-, -, -, hlt⟩ := h1
      obtain ⟨hs, he⟩ : (classifyAddresses db SUSHISWAP_EVENTS_TAG addresses to_ts).2.2 = s
          ∧ to_ts = e := by
        simpa using hrange
      omega
    · rw [if_neg h1] at hrange
      by_cases h2 : nm.1 = SUSHISWAP_EVENTS_TAG
          ∧ nm.2 ∈ (classifyAddresses db SUSHISWAP_EVENTS_TAG addresses to_ts).1
      · rw [if_pos h2] at hrange
        obtain ⟨hs, he⟩ : (0 : Nat) = s ∧ to_ts = e := by
          simpa using hrange
        omega
      · rw [if_neg h2] at hrange
        exact hinv nm s e hrange
  · intro a s0 e0 hr
    have hsome : (db.get_used_query_range (SUSHISWAP_EVENTS_TAG, a)).isSome = true := by
      rw [hr]
      rfl
    have hcl : classifyAddresses db SUSHISWAP_EVENTS_TAG [a] to_ts
        = ([], [a], min to_ts e0) := by
      rw [classifyAddresses_eq]
      simp [storedEnds, hr, Option.isNone_iff_eq_none]
    by_cases hlt : min to_ts e0 < to_ts
    · refine ⟨min to_ts e0, to_ts, ?_, ?_⟩
      · simp only [get_events_balances_ranges, hcl]
        simp [hlt]
      · omega
    · refine ⟨s0, e0, ?_, le_refl e0⟩
      simp only [get_events_balances_ranges, hcl]
      simp [hlt, hr]

/-! ### C1: range advancement vs fetch success -/

/-- Range-store content after a `get_trades` sync, for ANY query oracle
(including a failing one): existing addresses are overwritten with
`(min_end_ts, to_timestamp)` when the delta fetch ran, new addresses with
`(0, to_timestamp)`, everything else is untouched. -/
theorem get_trades_ranges
    (query : String → Nat → Nat → Nat → Except Unit (List (List AMMSwap)))
    (fuel : Nat) (addresses : List String) (from_ts to_ts : Nat) (db : DBState)
    (res : List (String × List AMMTrade)) (db2 : DBState)
    (flog : List (String × Nat × Nat))
    (h : get_trades query fuel addresses from_ts to_ts false db = some (res, db2, flog))
    (nm : RangeName) :
    db2.get_used_query_range nm =
      (if nm.1 = SUSHISWAP_TRADES_TAG
          ∧ nm.2 ∈ (classifyAddresses db SUSHISWAP_TRADES_TAG addresses to_ts).2.1
          ∧ (¬ (classifyAddresses db SUSHISWAP_TRADES_TAG addresses to_ts).2.1 = []
            ∧ (classifyAddresses db SUSHISWAP_TRADES_TAG addresses to_ts).2.2 < to_ts) then
        some ((classifyAddresses db SUSHISWAP_TRADES_TAG addresses to_ts).2.2, to_ts)
      else if nm.1 = SUSHISWAP_TRADES_TAG
          ∧ nm.2 ∈ (classifyAddresses db SUSHISWAP_TRADES_TAG addresses to_ts).1 then
        some (0, to_ts)
      else db.get_used_query_range nm) := by
  simp only [get_trades, Bool.false_eq_true, if_false] at h
  cases hg1 : get_trades_graph query fuel
      (classifyAddresses db SUSHISWAP_TRADES_TAG addresses to_ts).1 0 to_ts with
  | none =>
      rw [hg1] at h
      simp at h
  | some p1 =>
      obtain ⟨nt, l1⟩ := p1
      rw [hg1] at h
      by_cases hcond : ¬ (classifyAddresses db SUSHISWAP_TRADES_TAG addresses to_ts).2.1 = []
          ∧ (classifyAddresses db SUSHISWAP_TRADES_TAG addresses to_ts).2.2 < to_ts
      · simp only [if_pos hcond] at h
        cases hg2 : get_trades_graph query fuel
            (classifyAddresses db SUSHISWAP_TRADES_TAG addresses to_ts).2.1
            (classifyAddresses db SUSHISWAP_TRADES_TAG addresses to_ts).2.2 to_ts with
        | none =>
            rw [hg2] at h
            simp at h
        | some p2 =>
            obtain ⟨et, l2⟩ := p2
            rw [hg2] at h
            simp only [Option.some.injEq, Prod.mk.injEq] at h
            obtain ⟨-, hdb, -⟩ := h
            rw [← hdb, get_range_add_amm_swaps,
              get_range_after_updates, get_range_after_updates]
            by_cases h1 : nm.1 = SUSHISWAP_TRADES_TAG
                ∧ nm.2 ∈ (classifyAddresses db SUSHISWAP_TRADES_TAG addresses to_ts).2.1 <;>
              simp_all
      · simp only [if_neg hcond] at h
        simp only [Option.some.injEq, Prod.mk.injEq] at h
        obtain ⟨-, hdb, -⟩ := h
        rw [← hdb, if_neg (by tauto : ¬ (nm.1 = SUSHISWAP_TRADES_TAG
            ∧ nm.2 ∈ (classifyAddresses db SUSHISWAP_TRADES_TAG addresses to_ts).2.1
            ∧ (¬ (classifyAddresses db SUSHISWAP_TRADES_TAG addresses to_ts).2.1 = []
              ∧ (classifyAddresses db SUSHISWAP_TRADES_TAG addresses to_ts).2.2 < to_ts))),
          get_range_add_amm_swaps, get_range_after_updates]

/-- C1 counterexample: with a remote that fails EVERY page query with a
RemoteError, a `_get_trades` sync for a never-fetched address still advances
the stored used-query-range to `(0, to_timestamp)` and returns no trades.
`_get_trades_graph_for_address` swallows the RemoteError (sushiswap.py lines
472-474, `break`) and `_get_trades` then unconditionally writes the range
(lines 388-394), so a `to_timestamp` whose fetch failed IS stored — the claim
that a failed fetch leaves the stored range end unchanged is false. The
write to the event store (line 421) happens after the range update, not
before it. -/
theorem trades_range_advanced_after_failed_fetch_counterexample :
    (get_trades (fun _ _ _ _ => .error ()) 1 ["a"] 0 100 false DBState.empty).map
        (fun r => (r.1, (r.2.1).get_used_query_range (SUSHISWAP_TRADES_TAG, "a")))
      = some ([], some (0, 100)) := by
  decide

/-- C1 amended: for every sync invocation (`_get_trades` with
`only_cache=False`) and every query oracle — in particular one whose fetches
all fail with RemoteError — the stored used-query-range of every batch
address is advanced to end `to_timestamp` in that invocation: a new address
gets `(0, to_timestamp)`; an existing address gets
`(min_end_ts, to_timestamp)` when `to_timestamp` exceeds the batch's minimum
stored end, and keeps its old range otherwise. Advancement is therefore not
conditioned on the fetch having succeeded, and it happens before the fetched
records are written to the swap store. -/
theorem trades_range_advance_amended
    (query : String → Nat → Nat → Nat → Except Unit (List (List AMMSwap)))
    (fuel : Nat) (addresses : List String) (from_ts to_ts : Nat) (db : DBState)
    (res : List (String × List AMMTrade)) (db2 : DBState)
    (flog : List (String × Nat × Nat))
    (h : get_trades query fuel addresses from_ts to_ts false db = some (res, db2, flog)) :
    (∀ a ∈ addresses, db.get_used_query_range (SUSHISWAP_TRADES_TAG, a) = none →
        db2.get_used_query_range (SUSHISWAP_TRADES_TAG, a) = some (0, to_ts))
    ∧ (∀ a ∈ addresses, ∀ s0 e0,
        db.get_used_query_range (SUSHISWAP_TRADES_TAG, a) = some (s0, e0) →
        db2.get_used_query_range (SUSHISWAP_TRADES_TAG, a) =
          (if (classifyAddresses db SUSHISWAP_TRADES_TAG addresses to_ts).2.2 < to_ts then
            some ((classifyAddresses db SUSHISWAP_TRADES_TAG addresses to_ts).2.2, to_ts)
          else some (s0, e0))) := by
  constructor
  · intro a ha hnone
    rw [get_trades_ranges query fuel addresses from_ts to_ts db res db2 flog h]
    have hmem1 : a ∈ (classifyAddresses db SUSHISWAP_TRADES_TAG addresses to_ts).1 := by
      rw [classifyAddresses_eq]
      simp [List.mem_filter, ha, hnone]
    have hmem2 : a ∉ (classifyAddresses db SUSHISWAP_TRADES_TAG addresses to_ts).2.1 := by
      rw [classifyAddresses_eq]
      simp [List.mem_filter, hnone]
    rw [if_neg (by simp [hmem2]), if_pos (by simp [hmem1])]
  · intro a ha s0 e0 hsome
    rw [get_trades_ranges query fuel addresses from_ts to_ts db res db2 flog h]
    have hmem1 : a ∉ (classifyAddresses db SUSHISWAP_TRADES_TAG addresses to_ts).1 := by
      rw [classifyAddresses_eq]
      simp [List.mem_filter, hsome]
    have hmem2 : a ∈ (classifyAddresses db SUSHISWAP_TRADES_TAG addresses to_ts).2.1 := by
      rw [classifyAddresses_eq]
      simp [List.mem_filter, ha, hsome]
    have hne : ¬ (classifyAddresses db SUSHISWAP_TRADES_TAG addresses to_ts).2.1 = [] := by
      intro hemp
      rw [hemp] at hmem2
      simp at hmem2
    by_cases hlt : (classifyAddresses db SUSHISWAP_TRADES_TAG addresses to_ts).2.2 < to_ts
    · rw [if_pos (by exact ⟨rfl, hmem2, hne, hlt⟩), if_pos hlt]
    · rw [if_neg (by tauto), if_neg (by simp [hmem1]), if_neg hlt, hsome]

/-- Witness for the C1 amended theorem: the failed-fetch run of the
counterexample, where the new address "a" ends with range `(0, 100)`. -/
theorem trades_range_advance_amended_witness :
    (DBState.mk [((SUSHISWAP_TRADES_TAG, "a"), (0, 100))] [] []).get_used_query_range
        (SUSHISWAP_TRADES_TAG, "a") = some (0, 100) :=
  (trades_range_advance_amended (fun _ _ _ _ => .error ()) 1 ["a"] 0 100 DBState.empty
      [] (DBState.mk [((SUSHISWAP_TRADES_TAG, "a"), (0, 100))] [] []) [("a", 0, 100)]
      (by decide)).1
    "a" (by decide) (by decide)

/-! ### C3: fetch windows -/

/-- The fetch log produced by `get_events_balances`: one call per event type
for every new address over `[0, to_timestamp]`, then — only when the delta
fetch runs — one call per event type for every existing address over
`[min_end_ts, to_timestamp]`. -/
theorem get_events_balances_log (f : String → AMMEventType → Nat → Nat → List LPEvent)
    (G : List String → List (String × List LiquidityPool))
    (addresses : List String) (from_ts to_ts : Nat) (db : DBState) :
    (get_events_balances f G addresses from_ts to_ts db).2.2 =
      (classifyAddresses db SUSHISWAP_EVENTS_TAG addresses to_ts).1.flatMap
          (fun a => [(a, AMMEventType.mint, 0, to_ts), (a, AMMEventType.burn, 0, to_ts)])
        ++ (if ¬ (classifyAddresses db SUSHISWAP_EVENTS_TAG addresses to_ts).2.1 = []
              ∧ (classifyAddresses db SUSHISWAP_EVENTS_TAG addresses to_ts).2.2 < to_ts then
            (classifyAddresses db SUSHISWAP_EVENTS_TAG addresses to_ts).2.1.flatMap
              (fun a =>
                [(a, AMMEventType.mint,
                    (classifyAddresses db SUSHISWAP_EVENTS_TAG addresses to_ts).2.2, to_ts),
                  (a, AMMEventType.burn,
                    (classifyAddresses db SUSHISWAP_EVENTS_TAG addresses to_ts).2.2, to_ts)])
          else []) := by
  simp only [get_events_balances]
  by_cases hc : ¬ (classifyAddresses db SUSHISWAP_EVENTS_TAG addresses to_ts).2.1 = []
      ∧ (classifyAddresses db SUSHISWAP_EVENTS_TAG addresses to_ts).2.2 < to_ts
  · rw [if_pos hc, if_pos hc]
    rw [fold_processAddressEvents_log, fold_processAddressEvents_log]
    simp
  · rw [if_neg hc, if_neg hc]
    rw [fold_processAddressEvents_log]
    simp

/-- Folding the per-address trade fetch from a `none` accumulator stays
`none`. -/
theorem get_trades_graph_fold_none
    (query : String → Nat → Nat → Nat → Except Unit (List (List AMMSwap)))
    (fuel : Nat) (s e : Nat) (addresses : List String) :
    addresses.foldl (get_trades_graph_step query fuel s e) none = none := by
  induction addresses with
  | nil => rfl
  | cons b bs ihb => exact ihb

/-- If `get_trades_graph` returns, its fetch log is one entry per address
with the shared window. Stated for the fold with an arbitrary start. -/
theorem get_trades_graph_log_aux
    (query : String → Nat → Nat → Nat → Except Unit (List (List AMMSwap)))
    (fuel : Nat) (s e : Nat) (addresses : List String)
    (m0 : List (String × List AMMTrade)) (l0 : List (String × Nat × Nat))
    (m : List (String × List AMMTrade)) (flog : List (String × Nat × Nat))
    (h : addresses.foldl (get_trades_graph_step query fuel s e) (some (m0, l0))
      = some (m, flog)) :
    flog = l0 ++ addresses.map (fun a => (a, s, e)) := by
  induction addresses generalizing m0 l0 with
  | nil =>
      simp only [List.foldl_nil, Option.some.injEq, Prod.mk.injEq] at h
      simp [← h.2]
  | cons a rest ih =>
      simp only [List.foldl_cons] at h
      cases hg : get_trades_graph_for_address query a s e fuel with
      | none =>
          have hstep : get_trades_graph_step query fuel s e (some (m0, l0)) a = none := by
            simp [get_trades_graph_step, hg]
          rw [hstep, get_trades_graph_fold_none] at h
          exact absurd h (by simp)
      | some trades =>
          have hstep : get_trades_graph_step query fuel s e (some (m0, l0)) a
              = some ((if trades = [] then m0 else m0 ++ [(a, trades)]),
                l0 ++ [(a, s, e)]) := by
            simp [get_trades_graph_step, hg]
          rw [hstep] at h
          have := ih _ _ h
          simpa [List.append_assoc] using this

/-- The fetch log of a completed `get_trades` sync: each new address logged
with window `(0, to_timestamp)`, then — only when the delta fetch runs —
each existing address with window `(min_end_ts, to_timestamp)`. -/
theorem get_trades_log
    (query : String → Nat → Nat → Nat → Except Unit (List (List AMMSwap)))
    (fuel : Nat) (addresses : List String) (from_ts to_ts : Nat) (db : DBState)
    (res : List (String × List AMMTrade)) (db2 : DBState)
    (flog : List (String × Nat × Nat))
    (h : get_trades query fuel addresses from_ts to_ts false db = some (res, db2, flog)) :
    flog = (classifyAddresses db SUSHISWAP_TRADES_TAG addresses to_ts).1.map
        (fun a => (a, 0, to_ts))
      ++ (if ¬ (classifyAddresses db SUSHISWAP_TRADES_TAG addresses to_ts).2.1 = []
            ∧ (classifyAddresses db SUSHISWAP_TRADES_TAG addresses to_ts).2.2 < to_ts then
          (classifyAddresses db SUSHISWAP_TRADES_TAG addresses to_ts).2.1.map
            (fun a => (a, (classifyAddresses db SUSHISWAP_TRADES_TAG addresses to_ts).2.2, to_ts))
        else []) := by
  simp only [get_trades, Bool.false_eq_true, if_false] at h
  cases hg1 : get_trades_graph query fuel
      (classifyAddresses db SUSHISWAP_TRADES_TAG addresses to_ts).1 0 to_ts with
  | none =>
      rw [hg1] at h
      simp at h
  | some p1 =>
      obtain ⟨nt, l1⟩ := p1
      have hl1 : l1 = (classifyAddresses db SUSHISWAP_TRADES_TAG addresses to_ts).1.map
          (fun a => (a, 0, to_ts)) := by
        simpa using get_trades_graph_log_aux query fuel 0 to_ts _ [] [] nt l1
          (by simpa [get_trades_graph] using hg1)
      rw [hg1] at h
      by_cases hcond : ¬ (classifyAddresses db SUSHISWAP_TRADES_TAG addresses to_ts).2.1 = []
          ∧ (classifyAddresses db SUSHISWAP_TRADES_TAG addresses to_ts).2.2 < to_ts
      · simp only [if_pos hcond] at h
        cases hg2 : get_trades_graph query fuel
            (classifyAddresses db SUSHISWAP_TRADES_TAG addresses to_ts).2.1
            (classifyAddresses db SUSHISWAP_TRADES_TAG addresses to_ts).2.2 to_ts with
        | none =>
            rw [hg2] at h
            simp at h
        | some p2 =>
            obtain ⟨et, l2⟩ := p2
            have hl2 : l2 = (classifyAddresses db SUSHISWAP_TRADES_TAG addresses to_ts).2.1.map
                (fun a => (a, (classifyAddresses db SUSHISWAP_TRADES_TAG addresses to_ts).2.2,
                  to_ts)) := by
              simpa using get_trades_graph_log_aux query fuel
                (classifyAddresses db SUSHISWAP_TRADES_TAG addresses to_ts).2.2 to_ts _ [] [] et l2
                (by simpa [get_trades_graph] using hg2)
            rw [hg2] at h
            simp only [Option.some.injEq, Prod.mk.injEq] at h
            obtain ⟨-, -, hflog⟩ := h
            rw [← hflog, hl1, hl2, if_pos hcond]
      · simp only [if_neg hcond] at h
        simp only [Option.some.injEq, Prod.mk.injEq] at h
        obtain ⟨-, -, hflog⟩ := h
        rw [← hflog, hl1, if_neg hcond]

/-- C3: in both sync drivers, an address with no stored range is classified
new and fetched over `[0, to_timestamp]`; addresses with a stored range are
classified existing and all served by delta fetches over the one shared
window `[min_end_ts, to_timestamp]`, where `min_end_ts` is the minimum
stored end of the existing addresses (capped by `to_timestamp`); the delta
fetch is skipped entirely when `to_timestamp` is not greater than that
minimum. -/
theorem sync_fetch_windows
    (f : String → AMMEventType → Nat → Nat → List LPEvent)
    (G : List String → List (String × List LiquidityPool))
    (query : String → Nat → Nat → Nat → Except Unit (List (List AMMSwap)))
    (fuel : Nat) (addresses : List String) (from_ts to_ts : Nat) (db : DBState)
    (na1 ex1 : List String) (m1 : Nat) (na2 ex2 : List String) (m2 : Nat)
    (res : List (String × List AMMTrade)) (db2 : DBState)
    (flog : List (String × Nat × Nat))
    (hc1 : classifyAddresses db SUSHISWAP_EVENTS_TAG addresses to_ts = (na1, ex1, m1))
    (hc2 : classifyAddresses db SUSHISWAP_TRADES_TAG addresses to_ts = (na2, ex2, m2))
    (h : get_trades query fuel addresses from_ts to_ts false db = some (res, db2, flog)) :
    (na1 = addresses.filter
        (fun a => (db.get_used_query_range (SUSHISWAP_EVENTS_TAG, a)).isNone)
      ∧ ex1 = addresses.filter
        (fun a => (db.get_used_query_range (SUSHISWAP_EVENTS_TAG, a)).isSome)
      ∧ (∀ x ∈ storedEnds db SUSHISWAP_EVENTS_TAG addresses, m1 ≤ x)
      ∧ (m1 = to_ts ∨ m1 ∈ storedEnds db SUSHISWAP_EVENTS_TAG addresses))
    ∧ (na2 = addresses.filter
        (fun a => (db.get_used_query_range (SUSHISWAP_TRADES_TAG, a)).isNone)
      ∧ ex2 = addresses.filter
        (fun a => (db.get_used_query_range (SUSHISWAP_TRADES_TAG, a)).isSome)
      ∧ (∀ x ∈ storedEnds db SUSHISWAP_TRADES_TAG addresses, m2 ≤ x)
      ∧ (m2 = to_ts ∨ m2 ∈ storedEnds db SUSHISWAP_TRADES_TAG addresses))
    ∧ (get_events_balances f G addresses from_ts to_ts db).2.2 =
        na1.flatMap
          (fun a => [(a, AMMEventType.mint, 0, to_ts), (a, AMMEventType.burn, 0, to_ts)])
        ++ (if m1 < to_ts then
              ex1.flatMap
                (fun a => [(a, AMMEventType.mint, m1, to_ts), (a, AMMEventType.burn, m1, to_ts)])
            else [])
    ∧ flog = na2.map (fun a => (a, 0, to_ts))
        ++ (if m2 < to_ts then ex2.map (fun a => (a, m2, to_ts)) else []) := by
  have hq1 := classifyAddresses_eq db SUSHISWAP_EVENTS_TAG addresses to_ts
  have hq2 := classifyAddresses_eq db SUSHISWAP_TRADES_TAG addresses to_ts
  rw [hc1] at hq1
  rw [hc2] at hq2
  simp only [Prod.mk.injEq] at hq1 hq2
  obtain ⟨hna1, hex1, hm1⟩ := hq1
  obtain ⟨hna2, hex2, hm2⟩ := hq2
  have hcap1 : ex1 = [] → m1 = to_ts := by
    intro hemp
    have hfil : addresses.filter
        (fun a => (db.get_used_query_range (SUSHISWAP_EVENTS_TAG, a)).isSome) = [] := by
      rw [← hex1]
      exact hemp
    have hse : storedEnds db SUSHISWAP_EVENTS_TAG addresses = [] := by
      rw [storedEnds, List.filterMap_eq_nil_iff]
      intro a ha
      have h2 := List.filter_eq_nil_iff.mp hfil a ha
      cases hx : db.get_used_query_range (SUSHISWAP_EVENTS_TAG, a) with
      | none => rfl
      | some v =>
          rw [hx] at h2
          simp at h2
    rw [hm1, hse]
    rfl
  have hcap2 : ex2 = [] → m2 = to_ts := by
    intro hemp
    have hfil : addresses.filter
        (fun a => (db.get_used_query_range (SUSHISWAP_TRADES_TAG, a)).isSome) = [] := by
      rw [← hex2]
      exact hemp
    have hse : storedEnds db SUSHISWAP_TRADES_TAG addresses = [] := by
      rw [storedEnds, List.filterMap_eq_nil_iff]
      intro a ha
      have h2 := List.filter_eq_nil_iff.mp hfil a ha
      cases hx : db.get_used_query_range (SUSHISWAP_TRADES_TAG, a) with
      | none => rfl
      | some v =>
          rw [hx] at h2
          simp at h2
    rw [hm2, hse]
    rfl
  refine ⟨⟨hna1, hex1, ?_, ?_⟩, ⟨hna2, hex2, ?_, ?_⟩, ?_, ?_⟩
  · intro x hx
    rw [hm1]
    exact (foldl_min_spec _ to_ts).1.2 x hx
  · rw [hm1]
    exact (foldl_min_spec _ to_ts).2
  · intro x hx
    rw [hm2]
    exact (foldl_min_spec _ to_ts).1.2 x hx
  · rw [hm2]
    exact (foldl_min_spec _ to_ts).2
  · rw [get_events_balances_log f G addresses from_ts to_ts db, hc1]
    by_cases hlt : m1 < to_ts
    · have hne : ¬ ex1 = [] := by
        intro hemp
        exact absurd (hcap1 hemp) (by omega)
      rw [if_pos hlt, if_pos ⟨hne, hlt⟩]
    · rw [if_neg hlt, if_neg (by tauto)]
  · rw [get_trades_log query fuel addresses from_ts to_ts db res db2 flog h, hc2]
    by_cases hlt : m2 < to_ts
    · have hne : ¬ ex2 = [] := by
        intro hemp
        exact absurd (hcap2 hemp) (by omega)
      rw [if_pos hlt, if_pos ⟨hne, hlt⟩]
    · rw [if_neg hlt, if_neg (by tauto)]

/-- Witness for C3: a batch with one new address "n" and one existing address
"e" whose stored ranges end at 10, synced to 20. -/
theorem sync_fetch_windows_witness :
    (["n"] = (["n", "e"].filter (fun a =>
        ((DBState.mk [((SUSHISWAP_EVENTS_TAG, "e"), (0, 10)),
          ((SUSHISWAP_TRADES_TAG, "e"), (0, 10))] [] []).get_used_query_range
          (SUSHISWAP_EVENTS_TAG, a)).isNone))
      ∧ ["e"] = (["n", "e"].filter (fun a =>
        ((DBState.mk [((SUSHISWAP_EVENTS_TAG, "e"), (0, 10)),
          ((SUSHISWAP_TRADES_TAG, "e"), (0, 10))] [] []).get_used_query_range
          (SUSHISWAP_EVENTS_TAG, a)).isSome))
      ∧ (∀ x ∈ storedEnds (DBState.mk [((SUSHISWAP_EVENTS_TAG, "e"), (0, 10)),
          ((SUSHISWAP_TRADES_TAG, "e"), (0, 10))] [] []) SUSHISWAP_EVENTS_TAG ["n", "e"],
          10 ≤ x)
      ∧ ((10 : Nat) = 20 ∨ 10 ∈ storedEnds (DBState.mk [((SUSHISWAP_EVENTS_TAG, "e"), (0, 10)),
          ((SUSHISWAP_TRADES_TAG, "e"), (0, 10))] [] []) SUSHISWAP_EVENTS_TAG ["n", "e"]))
    ∧ (["n"] = (["n", "e"].filter (fun a =>
        ((DBState.mk [((SUSHISWAP_EVENTS_TAG, "e"), (0, 10)),
          ((SUSHISWAP_TRADES_TAG, "e"), (0, 10))] [] []).get_used_query_range
          (SUSHISWAP_TRADES_TAG, a)).isNone))
      ∧ ["e"] = (["n", "e"].filter (fun a =>
        ((DBState.mk [((SUSHISWAP_EVENTS_TAG, "e"), (0, 10)),
          ((SUSHISWAP_TRADES_TAG, "e"), (0, 10))] [] []).get_used_query_range
          (SUSHISWAP_TRADES_TAG, a)).isSome))
      ∧ (∀ x ∈ storedEnds (DBState.mk [((SUSHISWAP_EVENTS_TAG, "e"), (0, 10)),
          ((SUSHISWAP_TRADES_TAG, "e"), (0, 10))] [] []) SUSHISWAP_TRADES_TAG ["n", "e"],
          10 ≤ x)
      ∧ ((10 : Nat) = 20 ∨ 10 ∈ storedEnds (DBState.mk [((SUSHISWAP_EVENTS_TAG, "e"), (0, 10)),
          ((SUSHISWAP_TRADES_TAG, "e"), (0, 10))] [] []) SUSHISWAP_TRADES_TAG ["n", "e"]))
    ∧ (get_events_balances (fun _ _ _ _ => []) (fun _ => []) ["n", "e"] 0 20
        (DBState.mk [((SUSHISWAP_EVENTS_TAG, "e"), (0, 10)),
          ((SUSHISWAP_TRADES_TAG, "e"), (0, 10))] [] [])).2.2 =
        ["n"].flatMap
          (fun a => [(a, AMMEventType.mint, 0, 20), (a, AMMEventType.burn, 0, 20)])
        ++ (if (10 : Nat) < 20 then
              ["e"].flatMap
                (fun a => [(a, AMMEventType.mint, 10, 20), (a, AMMEventType.burn, 10, 20)])
            else [])
    ∧ [("n", 0, 20), ("e", 10, 20)] = (["n"].map (fun a => (a, (0 : Nat), (20 : Nat))))
        ++ (if (10 : Nat) < 20 then ["e"].map (fun a => (a, (10 : Nat), (20 : Nat))) else []) :=
  sync_fetch_windows (fun _ _ _ _ => []) (fun _ => []) (fun _ _ _ _ => .error ()) 1
    ["n", "e"] 0 20
    (DBState.mk [((SUSHISWAP_EVENTS_TAG, "e"), (0, 10)),
      ((SUSHISWAP_TRADES_TAG, "e"), (0, 10))] [] [])
    ["n"] ["e"] 10 ["n"] ["e"] 10 []
    (DBState.mk [((SUSHISWAP_EVENTS_TAG, "e"), (0, 10)),
      ((SUSHISWAP_TRADES_TAG, "e"), (10, 20)),
      ((SUSHISWAP_TRADES_TAG, "n"), (0, 20))] [] [])
    [("n", 0, 20), ("e", 10, 20)]
    (by decide) (by decide) (by decide)

/-! ### C4: pagination termination and accounting -/

/-- A perfect remote page source over `data`: the page at `offset` is
`data[offset : offset + GRAPH_QUERY_LIMIT]`, and no query fails. -/
def pageQuery {R : Type} (data : List R) (offset : Nat) : Except Unit (List R) :=
  .ok ((data.drop offset).take GRAPH_QUERY_LIMIT)

theorem GRAPH_QUERY_LIMIT_pos : 0 < GRAPH_QUERY_LIMIT := by
  decide

/-- Closed form of the balances pagination loop over a perfect page source:
it consumes exactly the remaining records and makes
`(remaining / L) + 1` query calls. -/
theorem get_balances_graph_loop_complete (data : List LPPosition) :
    ∀ (fuel offset : Nat) (acc : List (String × List LiquidityPool))
      (raw : List LPPosition) (nreq : Nat),
      (data.length - offset) / GRAPH_QUERY_LIMIT < fuel →
      get_balances_graph_loop (pageQuery data) fuel offset acc raw nreq
        = some (.ok ((data.drop offset).foldl addPosition acc, raw ++ data.drop offset,
            nreq + ((data.length - offset) / GRAPH_QUERY_LIMIT + 1))) := by
  intro fuel
  induction fuel with
  | zero =>
      intro offset acc raw nreq hfuel
      exact absurd hfuel (Nat.not_lt_zero _)
  | succ fuel ih =>
      intro offset acc raw nreq hfuel
      have hL := GRAPH_QUERY_LIMIT_pos
      simp only [get_balances_graph_loop, pageQuery]
      have hlen : ((data.drop offset).take GRAPH_QUERY_LIMIT).length
          = min GRAPH_QUERY_LIMIT (data.length - offset) := by
        simp [List.length_take, List.length_drop]
      by_cases hshort : ((data.drop offset).take GRAPH_QUERY_LIMIT).length < GRAPH_QUERY_LIMIT
      · rw [if_pos hshort]
        have hlt : data.length - offset < GRAPH_QUERY_LIMIT := by
          omega
        have hall : (data.drop offset).take GRAPH_QUERY_LIMIT = data.drop offset := by
          apply List.take_of_length_le
          simp [List.length_drop]
          omega
        have hdiv : (data.length - offset) / GRAPH_QUERY_LIMIT = 0 := Nat.div_eq_of_lt hlt
        rw [hall, hdiv]
      · rw [if_neg hshort]
        have hfull : GRAPH_QUERY_LIMIT ≤ data.length - offset := by
          omega
        have hdiv : (data.length - offset) / GRAPH_QUERY_LIMIT
            = (data.length - (offset + GRAPH_QUERY_LIMIT)) / GRAPH_QUERY_LIMIT + 1 := by
          rw [← Nat.sub_sub]
          exact Nat.div_eq_sub_div hL hfull
        rw [ih (offset + GRAPH_QUERY_LIMIT) _ _ _ (by omega)]
        have hsplit : data.drop offset
            = (data.drop offset).take GRAPH_QUERY_LIMIT
              ++ data.drop (offset + GRAPH_QUERY_LIMIT) := by
          conv_lhs => rw [← List.take_append_drop GRAPH_QUERY_LIMIT (data.drop offset)]
          rw [List.drop_drop]
        simp only [Option.some.injEq, Except.ok.injEq, Prod.mk.injEq]
        refine ⟨?_, ?_, ?_⟩
        · conv_rhs => rw [hsplit]
          rw [List.foldl_append]
        · conv_rhs => rw [hsplit]
          rw [← List.append_assoc]
        · omega

/-- Closed form of the price pagination loop over a perfect page source. -/
theorem get_unknown_asset_price_graph_loop_complete (data : List TokenDayData) :
    ∀ (fuel offset : Nat) (acc : List (String × FVal))
      (raw : List TokenDayData) (nreq : Nat),
      (data.length - offset) / GRAPH_QUERY_LIMIT < fuel →
      get_unknown_asset_price_graph_loop (pageQuery data) fuel offset acc raw nreq
        = some (.ok ((data.drop offset).foldl (fun m tdd => setAssoc m tdd.token tdd.priceUSD) acc,
            raw ++ data.drop offset,
            nreq + ((data.length - offset) / GRAPH_QUERY_LIMIT + 1))) := by
  intro fuel
  induction fuel with
  | zero =>
      intro offset acc raw nreq hfuel
      exact absurd hfuel (Nat.not_lt_zero _)
  | succ fuel ih =>
      intro offset acc raw nreq hfuel
      have hL := GRAPH_QUERY_LIMIT_pos
      simp only [get_unknown_asset_price_graph_loop, pageQuery]
      have hlen : ((data.drop offset).take GRAPH_QUERY_LIMIT).length
          = min GRAPH_QUERY_LIMIT (data.length - offset) := by
        simp [List.length_take, List.length_drop]
      by_cases hshort : ((data.drop offset).take GRAPH_QUERY_LIMIT).length < GRAPH_QUERY_LIMIT
      · rw [if_pos hshort]
        have hlt : data.length - offset < GRAPH_QUERY_LIMIT := by
          omega
        have hall : (data.drop offset).take GRAPH_QUERY_LIMIT = data.drop offset := by
          apply List.take_of_length_le
          simp [List.length_drop]
          omega
        have hdiv : (data.length - offset) / GRAPH_QUERY_LIMIT = 0 := Nat.div_eq_of_lt hlt
        rw [hall, hdiv]
      · rw [if_neg hshort]
        have hfull : GRAPH_QUERY_LIMIT ≤ data.length - offset := by
          omega
        have hdiv : (data.length - offset) / GRAPH_QUERY_LIMIT
            = (data.length - (offset + GRAPH_QUERY_LIMIT)) / GRAPH_QUERY_LIMIT + 1 := by
          rw [← Nat.sub_sub]
          exact Nat.div_eq_sub_div hL hfull
        rw [ih (offset + GRAPH_QUERY_LIMIT) _ _ _ (by omega)]
        have hsplit : data.drop offset
            = (data.drop offset).take GRAPH_QUERY_LIMIT
              ++ data.drop (offset + GRAPH_QUERY_LIMIT) := by
          conv_lhs => rw [← List.take_append_drop GRAPH_QUERY_LIMIT (data.drop offset)]
          rw [List.drop_drop]
        simp only [Option.some.injEq, Except.ok.injEq, Prod.mk.injEq]
        refine ⟨?_, ?_, ?_⟩
        · conv_rhs => rw [hsplit]
          rw [List.foldl_append]
        · conv_rhs => rw [hsplit]
          rw [← List.append_assoc]
        · omega

/-- Request count in the claim's form: `N / L + 1` equals `⌈N / L⌉`, except
that an exact multiple of `L` (including `N = 0`) needs one extra request to
observe the short final page. -/
theorem requests_eq_ceil (N L : Nat) (hL : 0 < L) :
    N / L + 1 = (if L ∣ N then N / L + 1 else (N + L - 1) / L) := by
  by_cases h : L ∣ N
  · rw [if_pos h]
  · rw [if_neg h]
    have hmod_lt : N % L < L := Nat.mod_lt _ hL
    have hmod_ne : N % L ≠ 0 := fun h0 => h (Nat.dvd_of_mod_eq_zero h0)
    have hdm := Nat.div_add_mod N L
    have key : N + L - 1 = L * (N / L) + (N % L + L - 1) := by
      omega
    rw [key, Nat.mul_add_div hL]
    have hone : (N % L + L - 1) / L = 1 := by
      apply Nat.div_eq_of_lt_le <;> omega
    omega

/-- C4: over a remote source holding `N` records with page size
`L = GRAPH_QUERY_LIMIT`, both pagination loops (`_get_balances_graph` and
`_get_unknown_asset_price_graph`), starting from offset 0 and advancing the
offset by `L` per full page, terminate after exactly `⌈N/L⌉` page requests
(`⌈N/L⌉ + 1` when `L` divides `N`, the empty source included) and the pages
they fetch concatenate to exactly the `N` source records, each exactly once
and in order. -/
theorem pagination_requests_and_records (data1 : List LPPosition) (data2 : List TokenDayData) :
    get_balances_graph (pageQuery data1) (data1.length / GRAPH_QUERY_LIMIT + 1)
      = some (.ok (data1.foldl addPosition [], data1,
          if GRAPH_QUERY_LIMIT ∣ data1.length then data1.length / GRAPH_QUERY_LIMIT + 1
          else (data1.length + GRAPH_QUERY_LIMIT - 1) / GRAPH_QUERY_LIMIT))
    ∧ get_unknown_asset_price_graph (pageQuery data2) (data2.length / GRAPH_QUERY_LIMIT + 1)
      = some (.ok (data2.foldl (fun m tdd => setAssoc m tdd.token tdd.priceUSD) [], data2,
          if GRAPH_QUERY_LIMIT ∣ data2.length then data2.length / GRAPH_QUERY_LIMIT + 1
          else (data2.length + GRAPH_QUERY_LIMIT - 1) / GRAPH_QUERY_LIMIT)) := by
  constructor
  · rw [get_balances_graph,
      get_balances_graph_loop_complete data1 _ 0 [] [] 0
        (by rw [Nat.sub_zero]; exact Nat.lt_succ_self _)]
    rw [← requests_eq_ceil data1.length GRAPH_QUERY_LIMIT GRAPH_QUERY_LIMIT_pos]
    simp
  · rw [get_unknown_asset_price_graph,
      get_unknown_asset_price_graph_loop_complete data2 _ 0 [] [] 0
        (by rw [Nat.sub_zero]; exact Nat.lt_succ_self _)]
    rw [← requests_eq_ceil data2.length GRAPH_QUERY_LIMIT GRAPH_QUERY_LIMIT_pos]
    simp

/-! ### C5: RemoteError behaviour of the three pagination loops -/

/-- If the remote returns `k` full pages and then fails, the balances loop
re-raises the error: everything accumulated is discarded. -/
theorem get_balances_graph_loop_error (query : Nat → Except Unit (List LPPosition))
    (pgs : List (List LPPosition)) :
    ∀ (fuel offset : Nat) (acc : List (String × List LiquidityPool))
      (raw : List LPPosition) (nreq : Nat),
      pgs.length < fuel →
      (∀ (j : Nat) (h : j < pgs.length),
        query (offset + j * GRAPH_QUERY_LIMIT) = .ok (pgs.get ⟨j, h⟩)) →
      (∀ p ∈ pgs, p.length = GRAPH_QUERY_LIMIT) →
      query (offset + pgs.length * GRAPH_QUERY_LIMIT) = .error () →
      get_balances_graph_loop query fuel offset acc raw nreq = some (.error ()) := by
  induction pgs with
  | nil =>
      intro fuel offset acc raw nreq hfuel hok hfull herr
      cases fuel with
      | zero => exact absurd hfuel (Nat.not_lt_zero _)
      | succ f =>
          simp only [List.length_nil, Nat.zero_mul, Nat.add_zero] at herr
          simp only [get_balances_graph_loop, herr]
  | cons p ps ih =>
      intro fuel offset acc raw nreq hfuel hok hfull herr
      cases fuel with
      | zero => exact absurd hfuel (Nat.not_lt_zero _)
      | succ f =>
          have hq0 : query offset = .ok p := by
            have := hok 0 (by simp)
            simpa using this
          have hplen : p.length = GRAPH_QUERY_LIMIT := hfull p (by simp)
          simp only [get_balances_graph_loop, hq0]
          rw [if_neg (by omega)]
          apply ih f (offset + GRAPH_QUERY_LIMIT) _ _ _ (by simpa using hfuel)
          · intro j h
            have := hok (j + 1) (by simpa using Nat.succ_lt_succ h)
            have harith : offset + (j + 1) * GRAPH_QUERY_LIMIT
                = offset + GRAPH_QUERY_LIMIT + j * GRAPH_QUERY_LIMIT := by
              ring
            rw [harith] at this
            simpa using this
          · intro q hq
            exact hfull q (List.mem_cons_of_mem _ hq)
          · have harith : offset + (p :: ps).length * GRAPH_QUERY_LIMIT
                = offset + GRAPH_QUERY_LIMIT + ps.length * GRAPH_QUERY_LIMIT := by
              simp [List.length_cons]
              ring
            rw [harith] at herr
            exact herr

/-- If the remote returns `k` full pages and then fails, the price loop
re-raises the error. -/
theorem get_unknown_asset_price_graph_loop_error
    (query : Nat → Except Unit (List TokenDayData)) (pgs : List (List TokenDayData)) :
    ∀ (fuel offset : Nat) (acc : List (String × FVal))
      (raw : List TokenDayData) (nreq : Nat),
      pgs.length < fuel →
      (∀ (j : Nat) (h : j < pgs.length),
        query (offset + j * GRAPH_QUERY_LIMIT) = .ok (pgs.get ⟨j, h⟩)) →
      (∀ p ∈ pgs, p.length = GRAPH_QUERY_LIMIT) →
      query (offset + pgs.length * GRAPH_QUERY_LIMIT) = .error () →
      get_unknown_asset_price_graph_loop query fuel offset acc raw nreq
        = some (.error ()) := by
  induction pgs with
  | nil =>
      intro fuel offset acc raw nreq hfuel hok hfull herr
      cases fuel with
      | zero => exact absurd hfuel (Nat.not_lt_zero _)
      | succ f =>
          simp only [List.length_nil, Nat.zero_mul, Nat.add_zero] at herr
          simp only [get_unknown_asset_price_graph_loop, herr]
  | cons p ps ih =>
      intro fuel offset acc raw nreq hfuel hok hfull herr
      cases fuel with
      | zero => exact absurd hfuel (Nat.not_lt_zero _)
      | succ f =>
          have hq0 : query offset = .ok p := by
            have := hok 0 (by simp)
            simpa using this
          have hplen : p.length = GRAPH_QUERY_LIMIT := hfull p (by simp)
          simp only [get_unknown_asset_price_graph_loop, hq0]
          rw [if_neg (by omega)]
          apply ih f (offset + GRAPH_QUERY_LIMIT) _ _ _ (by simpa using hfuel)
          · intro j h
            have := hok (j + 1) (by simpa using Nat.succ_lt_succ h)
            have harith : offset + (j + 1) * GRAPH_QUERY_LIMIT
                = offset + GRAPH_QUERY_LIMIT + j * GRAPH_QUERY_LIMIT := by
              ring
            rw [harith] at this
            simpa using this
          · intro q hq
            exact hfull q (List.mem_cons_of_mem _ hq)
          · have harith : offset + (p :: ps).length * GRAPH_QUERY_LIMIT
                = offset + GRAPH_QUERY_LIMIT + ps.length * GRAPH_QUERY_LIMIT := by
              simp [List.length_cons]
              ring
            rw [harith] at herr
            exact herr

/-- The per-page trade processing of `_get_trades_graph_for_address`. -/
def processSwapEntries (acc : List AMMTrade) (entries : List (List AMMSwap)) : List AMMTrade :=
  entries.foldl
    (fun ts entry => if entry.length = 0 then ts else ts ++ tx_swaps_to_trades entry) acc

/-- If the remote returns `k` full pages and then fails, the trade-history
loop breaks early and returns the trades of the successful prefix. -/
theorem get_trades_graph_for_address_loop_error
    (query : String → Nat → Nat → Nat → Except Unit (List (List AMMSwap)))
    (address : String) (s e : Nat) (pgs : List (List (List AMMSwap))) :
    ∀ (fuel offset : Nat) (trades : List AMMTrade),
      pgs.length < fuel →
      (∀ (j : Nat) (h : j < pgs.length),
        query address s e (offset + j * GRAPH_QUERY_LIMIT) = .ok (pgs.get ⟨j, h⟩)) →
      (∀ p ∈ pgs, p.length = GRAPH_QUERY_LIMIT) →
      query address s e (offset + pgs.length * GRAPH_QUERY_LIMIT) = .error () →
      get_trades_graph_for_address_loop query address s e fuel offset trades
        = some (processSwapEntries trades pgs.flatten) := by
  induction pgs with
  | nil =>
      intro fuel offset trades hfuel hok hfull herr
      cases fuel with
      | zero => exact absurd hfuel (Nat.not_lt_zero _)
      | succ f =>
          simp only [List.length_nil, Nat.zero_mul, Nat.add_zero] at herr
          simp only [get_trades_graph_for_address_loop, herr, List.flatten_nil,
            processSwapEntries, List.foldl_nil]
  | cons p ps ih =>
      intro fuel offset trades hfuel hok hfull herr
      cases fuel with
      | zero => exact absurd hfuel (Nat.not_lt_zero _)
      | succ f =>
          have hq0 : query address s e offset = .ok p := by
            have := hok 0 (by simp)
            simpa using this
          have hplen : p.length = GRAPH_QUERY_LIMIT := hfull p (by simp)
          simp only [get_trades_graph_for_address_loop, hq0]
          rw [if_neg (by omega)]
          rw [ih f (offset + GRAPH_QUERY_LIMIT) _ (by simpa using hfuel)
            (by
              intro j h
              have := hok (j + 1) (by simpa using Nat.succ_lt_succ h)
              have harith : offset + (j + 1) * GRAPH_QUERY_LIMIT
                  = offset + GRAPH_QUERY_LIMIT + j * GRAPH_QUERY_LIMIT := by
                ring
              rw [harith] at this
              simpa using this)
            (fun q hq => hfull q (List.mem_cons_of_mem _ hq))
            (by
              have harith : offset + (p :: ps).length * GRAPH_QUERY_LIMIT
                  = offset + GRAPH_QUERY_LIMIT + ps.length * GRAPH_QUERY_LIMIT := by
                simp [List.length_cons]
                ring
              rw [harith] at herr
              exact herr)]
          rw [List.flatten_cons, processSwapEntries, processSwapEntries,
            List.foldl_append]

/-- C5: on a RemoteError after `k` successful (full) pages, the balance query
and the price query re-raise the error — all accumulated pages are discarded —
while the trade-history query stops the page loop early and returns the
trades accumulated from the successful prefix of pages. -/
theorem remote_error_strict_vs_prefix
    (queryB : Nat → Except Unit (List LPPosition))
    (queryP : Nat → Except Unit (List TokenDayData))
    (queryT : String → Nat → Nat → Nat → Except Unit (List (List AMMSwap)))
    (address : String) (s e fuel : Nat)
    (pgsB : List (List LPPosition)) (pgsP : List (List TokenDayData))
    (pgsT : List (List (List AMMSwap)))
    (hfB : pgsB.length < fuel)
    (hokB : ∀ (j : Nat) (h : j < pgsB.length),
      queryB (j * GRAPH_QUERY_LIMIT) = .ok (pgsB.get ⟨j, h⟩))
    (hfullB : ∀ p ∈ pgsB, p.length = GRAPH_QUERY_LIMIT)
    (herrB : queryB (pgsB.length * GRAPH_QUERY_LIMIT) = .error ())
    (hfP : pgsP.length < fuel)
    (hokP : ∀ (j : Nat) (h : j < pgsP.length),
      queryP (j * GRAPH_QUERY_LIMIT) = .ok (pgsP.get ⟨j, h⟩))
    (hfullP : ∀ p ∈ pgsP, p.length = GRAPH_QUERY_LIMIT)
    (herrP : queryP (pgsP.length * GRAPH_QUERY_LIMIT) = .error ())
    (hfT : pgsT.length < fuel)
    (hokT : ∀ (j : Nat) (h : j < pgsT.length),
      queryT address s e (j * GRAPH_QUERY_LIMIT) = .ok (pgsT.get ⟨j, h⟩))
    (hfullT : ∀ p ∈ pgsT, p.length = GRAPH_QUERY_LIMIT)
    (herrT : queryT address s e (pgsT.length * GRAPH_QUERY_LIMIT) = .error ()) :
    get_balances_graph queryB fuel = some (.error ())
    ∧ get_unknown_asset_price_graph queryP fuel = some (.error ())
    ∧ get_trades_graph_for_address queryT address s e fuel
        = some (processSwapEntries [] pgsT.flatten) := by
  refine ⟨?_, ?_, ?_⟩
  · rw [get_balances_graph]
    apply get_balances_graph_loop_error queryB pgsB fuel 0 [] [] 0 hfB
    · intro j h
      simpa using hokB j h
    · exact hfullB
    · simpa using herrB
  · rw [get_unknown_asset_price_graph]
    apply get_unknown_asset_price_graph_loop_error queryP pgsP fuel 0 [] [] 0 hfP
    · intro j h
      simpa using hokP j h
    · exact hfullP
    · simpa using herrP
  · rw [get_trades_graph_for_address]
    apply get_trades_graph_for_address_loop_error queryT address s e pgsT fuel 0 [] hfT
    · intro j h
      simpa using hokT j h
    · exact hfullT
    · simpa using herrT

/-- Witness for C5: the remote fails on the very first page (`k = 0`); the
balance and price queries surface the error, the trade query returns the
empty successful prefix. -/
theorem remote_error_strict_vs_prefix_witness :
    get_balances_graph (fun _ => .error ()) 1 = some (.error ())
    ∧ get_unknown_asset_price_graph (fun _ => .error ()) 1 = some (.error ())
    ∧ get_trades_graph_for_address (fun _ _ _ _ => .error ()) "a" 0 100 1
        = some (processSwapEntries [] ([] : List (List (List AMMSwap))).flatten) :=
  remote_error_strict_vs_prefix (fun _ => .error ()) (fun _ => .error ())
    (fun _ _ _ _ => .error ()) "a" 0 100 1 [] [] []
    (by decide) (fun j h => absurd h (Nat.not_lt_zero _)) (by simp) rfl
    (by decide) (fun j h => absurd h (Nat.not_lt_zero _)) (by simp) rfl
    (by decide) (fun j h => absurd h (Nat.not_lt_zero _)) (by simp) rfl

/-! ### C6: swap leg classification -/

/-- C6: per raw swap leg, the direction is BUY when both `amount1In > 0` and
`amount0Out > 0` (checked first), SELL when both `amount0In > 0` and
`amount1Out > 0`; a leg matching neither pattern classifies to `none` — it is
dropped, never raised on — and a transaction all of whose legs are dropped
contributes zero trades. -/
theorem swap_leg_direction_classification :
    (∀ s : AMMSwap, 0 < s.amount1_in → 0 < s.amount0_out →
      classify_leg s = some TradeType.buy)
    ∧ (∀ s : AMMSwap, 0 < s.amount0_in → 0 < s.amount1_out →
      ¬ (0 < s.amount1_in ∧ 0 < s.amount0_out) → classify_leg s = some TradeType.sell)
    ∧ (∀ s : AMMSwap, ¬ (0 < s.amount1_in ∧ 0 < s.amount0_out) →
      ¬ (0 < s.amount0_in ∧ 0 < s.amount1_out) → classify_leg s = none)
    ∧ (∀ legs : List AMMSwap, (∀ s ∈ legs, classify_leg s = none) →
      tx_swaps_to_trades legs = []) := by
  refine ⟨?_, ?_, ?_, ?_⟩
  · intro s h1 h2
    rw [classify_leg, if_pos ⟨h1, h2⟩]
  · intro s h1 h2 hnot
    rw [classify_leg, if_neg hnot, if_pos ⟨h1, h2⟩]
  · intro s h1 h2
    rw [classify_leg, if_neg h1, if_neg h2]
  · intro legs hall
    have hnilcl : (sortBy leLogIndex legs).filterMap
        (fun s => (classify_leg s).map (fun d => (d, s))) = [] := by
      rw [List.filterMap_eq_nil_iff]
      intro s hs
      rw [hall s ((mem_sortBy leLogIndex s legs).mp hs)]
      rfl
    simp only [tx_swaps_to_trades, hnilcl, chunkRuns, List.map_nil]

/-- A BUY-pattern leg for the C6 witness. -/
def wBuyLeg : AMMSwap := ⟨"t", 0, "a", "f", "r", 3, "t0", "t1", 0, 1, 1, 0⟩

/-- A SELL-pattern leg for the C6 witness. -/
def wSellLeg : AMMSwap := ⟨"t", 1, "a", "f", "r", 3, "t0", "t1", 1, 0, 0, 1⟩

/-- An invalid leg (all four amounts zero) for the C6 witness. -/
def wBadLeg : AMMSwap := ⟨"t", 2, "a", "f", "r", 3, "t0", "t1", 0, 0, 0, 0⟩

/-- Witness for C6 on three concrete legs and an all-invalid transaction. -/
theorem swap_leg_direction_classification_witness :
    classify_leg wBuyLeg = some TradeType.buy
    ∧ classify_leg wSellLeg = some TradeType.sell
    ∧ classify_leg wBadLeg = none
    ∧ tx_swaps_to_trades [wBadLeg] = [] :=
  ⟨swap_leg_direction_classification.1 wBuyLeg (by decide) (by decide),
    swap_leg_direction_classification.2.1 wSellLeg (by decide) (by decide) (by decide),
    swap_leg_direction_classification.2.2.1 wBadLeg (by decide) (by decide),
    swap_leg_direction_classification.2.2.2 [wBadLeg] (by decide)⟩

/-! ### C7: reconciliation gated on a full-history query -/

/-- C7: within `_get_events_balances`, the live balance snapshot is fetched
and used only when `from_timestamp = 0`; for any windowed query
(`from_timestamp ≠ 0`) every per-pool profit/loss is computed with the empty
balance list, i.e. zero for the live balance term, and the snapshot oracle is
never consulted. -/
theorem reconcile_only_full_history
    (f : String → AMMEventType → Nat → Nat → List LPEvent)
    (G : List String → List (String × List LiquidityPool))
    (addresses : List String) (to_ts : Nat) (db : DBState) :
    (∀ (from_ts : Nat) (res : List (String × List LiquidityPoolEventsBalance))
        (db2 : DBState) (flog : List (String × AMMEventType × Nat × Nat)),
      get_events_balances f G addresses from_ts to_ts db = (res, db2, flog) →
      from_ts ≠ 0 →
      res = (readback_events db2 addresses from_ts to_ts).map
        (fun p => (p.1, calculate_events_balances p.1 p.2 [])))
    ∧ (∀ (res : List (String × List LiquidityPoolEventsBalance))
        (db2 : DBState) (flog : List (String × AMMEventType × Nat × Nat)),
      get_events_balances f G addresses 0 to_ts db = (res, db2, flog) →
      res = (readback_events db2 addresses 0 to_ts).map
        (fun p => (p.1, calculate_events_balances p.1 p.2
          ((lookupAssoc (G addresses) p.1).getD [])))) := by
  constructor
  · intro from_ts res db2 flog h hfrom
    simp only [get_events_balances] at h
    simp only [Prod.mk.injEq] at h
    obtain ⟨hres, hdb, -⟩ := h
    rw [← hres, ← hdb, if_neg hfrom]
    simp [lookupAssoc]
  · intro res db2 flog h
    simp only [get_events_balances] at h
    simp only [Prod.mk.injEq] at h
    obtain ⟨hres, hdb, -⟩ := h
    rw [← hres, ← hdb]
    simp

/-- Witness for C7: a windowed sync (`from_timestamp = 1`) of one address
against an empty database. -/
theorem reconcile_only_full_history_witness :
    (get_events_balances (fun _ _ _ _ => []) (fun _ => []) ["a"] 1 5 DBState.empty).1
      = (readback_events
          (get_events_balances (fun _ _ _ _ => []) (fun _ => []) ["a"] 1 5 DBState.empty).2.1
          ["a"] 1 5).map
        (fun p => (p.1, calculate_events_balances p.1 p.2 [])) :=
  (reconcile_only_full_history (fun _ _ _ _ => []) (fun _ => []) ["a"] 5 DBState.empty).1
    1
    (get_events_balances (fun _ _ _ _ => []) (fun _ => []) ["a"] 1 5 DBState.empty).1
    (get_events_balances (fun _ _ _ _ => []) (fun _ => []) ["a"] 1 5 DBState.empty).2.1
    (get_events_balances (fun _ _ _ _ => []) (fun _ => []) ["a"] 1 5 DBState.empty).2.2
    rfl (by decide)

/-! ### C8: read-back ordering -/

/-- Membership in the read-back mapping comes from a non-empty filtered event
list of one of the requested addresses. -/
theorem readback_events_mem (db : DBState) (from_ts to_ts : Nat) :
    ∀ (addresses : List String) (acc : List (String × List LPEvent))
      (p : String × List LPEvent),
      p ∈ addresses.foldl
        (fun acc address =>
          let db_events := db.get_sushiswap_events from_ts to_ts address
          if db_events = [] then acc
          else acc ++ [(address, sortBy leTsLogIndexEvent db_events)]) acc →
      p ∈ acc ∨ ∃ address, address ∈ addresses
        ∧ ¬ db.get_sushiswap_events from_ts to_ts address = []
        ∧ p = (address,
            sortBy leTsLogIndexEvent (db.get_sushiswap_events from_ts to_ts address)) := by
  intro addresses
  induction addresses with
  | nil =>
      intro acc p hp
      exact Or.inl hp
  | cons a rest ih =>
      intro acc p hp
      simp only [List.foldl_cons] at hp
      by_cases hemp : db.get_sushiswap_events from_ts to_ts a = []
      · rw [if_pos hemp] at hp
        rcases ih acc p hp with h | ⟨address, hmem, hne, hpe⟩
        · exact Or.inl h
        · exact Or.inr ⟨address, List.mem_cons_of_mem _ hmem, hne, hpe⟩
      · rw [if_neg hemp] at hp
        rcases ih _ p hp with h | ⟨address, hmem, hne, hpe⟩
        · rcases List.mem_append.mp h with h' | h'
          · exact Or.inl h'
          · refine Or.inr ⟨a, List.mem_cons_self _ _, hemp, ?_⟩
            simpa using h'
        · exact Or.inr ⟨address, List.mem_cons_of_mem _ hmem, hne, hpe⟩

/-- C8: every entry of the read-back phase is a non-empty event list sorted
ascending by `(timestamp, log_index)` (sushiswap.py lines 313-322). The
read-back is a pure function of the stored events, so repeated calls over the
same store return the same order. -/
theorem readback_events_sorted (db : DBState) (addresses : List String)
    (from_ts to_ts : Nat) :
    ∀ p ∈ readback_events db addresses from_ts to_ts,
      p.2 ≠ []
      ∧ p.2.Pairwise (fun e1 e2 => e1.timestamp < e2.timestamp
          ∨ (e1.timestamp = e2.timestamp ∧ e1.log_index ≤ e2.log_index)) := by
  intro p hp
  rcases readback_events_mem db from_ts to_ts addresses [] p hp with h | ⟨address, -, hne, hpe⟩
  · exact absurd h (List.not_mem_nil p)
  · constructor
    · rw [hpe]
      intro hnil
      have hnil2 : sortBy leTsLogIndexEvent (db.get_sushiswap_events from_ts to_ts address)
          = [] := hnil
      obtain ⟨x, hx⟩ := List.exists_mem_of_ne_nil _ hne
      have hxs : x ∈ sortBy leTsLogIndexEvent (db.get_sushiswap_events from_ts to_ts address) :=
        (mem_sortBy _ x _).mpr hx
      rw [hnil2] at hxs
      exact absurd hxs (List.not_mem_nil x)
    · rw [hpe]
      have hpw := sortBy_pairwise leTsLogIndexEvent leTsLogIndexEvent_total
        leTsLogIndexEvent_trans (db.get_sushiswap_events from_ts to_ts address)
      refine hpw.imp ?_
      intro e1 e2 h12
      simpa [leTsLogIndexEvent, decide_eq_true_eq] using h12

/-- A stored event for the C8/C10 witnesses. -/
def wEvent : LPEvent := ⟨"t", 0, "a", 3, .mint, "p", 1, 1⟩

/-- Witness for C8: a store holding one event of address "a". -/
theorem readback_events_sorted_witness :
    ([wEvent] : List LPEvent) ≠ []
    ∧ ([wEvent] : List LPEvent).Pairwise (fun e1 e2 => e1.timestamp < e2.timestamp
        ∨ (e1.timestamp = e2.timestamp ∧ e1.log_index ≤ e2.log_index)) :=
  readback_events_sorted (DBState.mk [] [wEvent] []) ["a"] 0 5 ("a", [wEvent])
    (by decide)

/-! ### C10: result entries require events in the window -/

/-- C10: `_get_events_balances` maps an address only if the (post-write)
event store holds at least one event of that address inside the requested
window; an address with no such events is absent from the result rather than
mapped to an empty list. -/
theorem events_balances_entries_have_events
    (f : String → AMMEventType → Nat → Nat → List LPEvent)
    (G : List String → List (String × List LiquidityPool))
    (addresses : List String) (from_ts to_ts : Nat) (db : DBState)
    (res : List (String × List LiquidityPoolEventsBalance)) (db2 : DBState)
    (flog : List (String × AMMEventType × Nat × Nat))
    (h : get_events_balances f G addresses from_ts to_ts db = (res, db2, flog)) :
    ∀ a v, (a, v) ∈ res → ∃ ev ∈ db2.sushiswap_events,
      ev.address = a ∧ from_ts ≤ ev.timestamp ∧ ev.timestamp ≤ to_ts := by
  intro a v hav
  simp only [get_events_balances] at h
  simp only [Prod.mk.injEq] at h
  obtain ⟨hres, hdb, -⟩ := h
  rw [← hres] at hav
  rw [List.mem_map] at hav
  obtain ⟨p, hp, hpe⟩ := hav
  rcases readback_events_mem _ from_ts to_ts addresses [] p hp with h' | ⟨address, -, hne, hpadr⟩
  · exact absurd h' (List.not_mem_nil p)
  · obtain ⟨x, hx⟩ := List.exists_mem_of_ne_nil _ hne
    have hxmem := List.mem_filter.mp hx
    refine ⟨x, ?_, ?_⟩
    · rw [← hdb]
      exact hxmem.1
    · have hpred := hxmem.2
      simp only [decide_eq_true_eq] at hpred
      have haddr : address = a := by
        have := congrArg Prod.fst hpe
        simp only at this
        rw [hpadr] at this
        simpa using this
      rw [← haddr]
      exact hpred

/-- Witness for C10: a sync that fetches one MINT event for address "a" and
maps "a" in the result. -/
theorem events_balances_entries_have_events_witness :
    ∃ ev ∈ ((get_events_balances
        (fun a et _ _ => if a = "a" ∧ et = AMMEventType.mint then [wEvent] else [])
        (fun _ => []) ["a"] 0 5 DBState.empty).2.1).sushiswap_events,
      ev.address = "a" ∧ 0 ≤ ev.timestamp ∧ ev.timestamp ≤ 5 :=
  events_balances_entries_have_events
    (fun a et _ _ => if a = "a" ∧ et = AMMEventType.mint then [wEvent] else [])
    (fun _ => []) ["a"] 0 5 DBState.empty
    (get_events_balances
      (fun a et _ _ => if a = "a" ∧ et = AMMEventType.mint then [wEvent] else [])
      (fun _ => []) ["a"] 0 5 DBState.empty).1
    (get_events_balances
      (fun a et _ _ => if a = "a" ∧ et = AMMEventType.mint then [wEvent] else [])
      (fun _ => []) ["a"] 0 5 DBState.empty).2.1
    (get_events_balances
      (fun a et _ _ => if a = "a" ∧ et = AMMEventType.mint then [wEvent] else [])
      (fun _ => []) ["a"] 0 5 DBState.empty).2.2
    rfl "a" (calculate_events_balances "a" [wEvent] []) (by exact List.mem_cons_self _ _)

/-- Witness for the C2 amended theorem at a concrete input. -/
theorem events_range_invariant_amended_witness :
    (∀ nm s e,
        ((get_events_balances (fun _ _ _ _ => []) (fun _ => []) ["a"] 0 5
            DBState.empty).2.1).get_used_query_range nm = some (s, e) → s ≤ e)
    ∧ (∀ a s0 e0,
        DBState.empty.get_used_query_range (SUSHISWAP_EVENTS_TAG, a) = some (s0, e0) →
        ∃ s1 e1,
          ((get_events_balances (fun _ _ _ _ => []) (fun _ => []) [a] 0 5
              DBState.empty).2.1).get_used_query_range (SUSHISWAP_EVENTS_TAG, a)
            = some (s1, e1) ∧ e0 ≤ e1) :=
  events_range_invariant_amended (fun _ _ _ _ => []) (fun _ => []) ["a"] 0 5 DBState.empty
    (by
      intro nm s e h
      simp [DBState.empty, DBState.get_used_query_range, lookupAssoc] at h)

end Sushi

/-- C9: each of the four AdEx staking event types serializes via
`to_db_tuple` to the 13-field DB tuple with a distinct event-type string per
variant ('deposit', 'withdraw', 'withdraw request', 'claim'), and exactly the
variant-specific optional fields are non-None: `Bond` sets bond_id, nonce and
slashed_at; `Unbond` sets only bond_id; `UnbondRequest` sets bond_id and
unlock_at; `ChannelWithdraw` sets only channel_id. -/
theorem adex_to_db_tuple_variant_fields
    (b : Adex.Bond) (u : Adex.Unbond) (r : Adex.UnbondRequest) (c : Adex.ChannelWithdraw) :
    (b.to_db_tuple.event_type = "deposit"
      ∧ b.to_db_tuple.bond_id = some b.bond_id
      ∧ b.to_db_tuple.nonce = some b.nonce
      ∧ b.to_db_tuple.slashed_at = some (b.slashed_at : Int)
      ∧ b.to_db_tuple.unlock_at = none
      ∧ b.to_db_tuple.channel_id = none)
    ∧ (u.to_db_tuple.event_type = "withdraw"
      ∧ u.to_db_tuple.bond_id = some u.bond_id
      ∧ u.to_db_tuple.nonce = none
      ∧ u.to_db_tuple.slashed_at = none
      ∧ u.to_db_tuple.unlock_at = none
      ∧ u.to_db_tuple.channel_id = none)
    ∧ (r.to_db_tuple.event_type = "withdraw request"
      ∧ r.to_db_tuple.bond_id = some r.bond_id
      ∧ r.to_db_tuple.nonce = none
      ∧ r.to_db_tuple.slashed_at = none
      ∧ r.to_db_tuple.unlock_at = some (r.unlock_at : Int)
      ∧ r.to_db_tuple.channel_id = none)
    ∧ (c.to_db_tuple.event_type = "claim"
      ∧ c.to_db_tuple.bond_id = none
      ∧ c.to_db_tuple.nonce = none
      ∧ c.to_db_tuple.slashed_at = none
      ∧ c.to_db_tuple.unlock_at = none
      ∧ c.to_db_tuple.channel_id = some c.channel_id)
    ∧ (Adex.EventType.BOND.toStr ≠ Adex.EventType.UNBOND.toStr
      ∧ Adex.EventType.BOND.toStr ≠ Adex.EventType.UNBOND_REQUEST.toStr
      ∧ Adex.EventType.BOND.toStr ≠ Adex.EventType.CHANNEL_WITHDRAW.toStr
      ∧ Adex.EventType.UNBOND.toStr ≠ Adex.EventType.UNBOND_REQUEST.toStr
      ∧ Adex.EventType.UNBOND.toStr ≠ Adex.EventType.CHANNEL_WITHDRAW.toStr
      ∧ Adex.EventType.UNBOND_REQUEST.toStr ≠ Adex.EventType.CHANNEL_WITHDRAW.toStr) :=
  ⟨⟨rfl, rfl, rfl, rfl, rfl, rfl⟩, ⟨rfl, rfl, rfl, rfl, rfl, rfl⟩,
    ⟨rfl, rfl, rfl, rfl, rfl, rfl⟩, ⟨rfl, rfl, rfl, rfl, rfl, rfl⟩, by decide⟩
